import Mathlib

/-!
# super-simple-cache: a verification development

A shallow embedding of the two stores of the repository,

* `simple/cache.go`  : a map guarded by a mutex (`simple.Set`, `simple.Get`);
* `channel/cache.go` : a map owned by one worker goroutine (`channel.listen`)
  that is driven by messages (`channel.Set`, `channel.Get`).

Modelling conventions.

* `time.Time` and `time.Duration` are integers (nanoseconds on one time line);
  `Time.Add` is addition and `Time.Before` is the strict order.
* Every call of `time.Now()` takes the next reading of a clock, an arbitrary
  stream of instants carried by the `World`; nothing in the definitions assumes
  the stream to be monotone.
* A Go `func` value may be impure, so a resolver is a function of the number of
  resolver invocations made so far and of the key.  The `World` counts the
  invocations.
* A Go `map[K]T` is a function `K → Option T`; `m[k] = v` is `Store.put`.
* A nil pointer, a nil `error` and a nil `func` are `none`.
* The operations are run by one caller, each to completion before the next;
  the mutex of the simple store is therefore not represented.
-/

set_option autoImplicit false

/-! ## Shared types -/

/-- An instant (`time.Time`). -/
abbrev Time := Int

/-- A span of time (`time.Duration`). -/
abbrev Duration := Int

namespace time

/-- The method `Time.Add`. -/
def Add (t : Time) (d : Duration) : Time := t + d

/-- The method `Time.Before`: strictly earlier. -/
def Before (t u : Time) : Bool := decide (t < u)

end time

/-- Values of the Go interface `error`: either built by `fmt.Errorf` (kept as
the formatted message) or any other error value, of a type `E` chosen by the
callers. -/
inductive error (E : Type) where
  | Errorf (msg : String) : error E
  | custom (e : E) : error E
deriving DecidableEq, Repr

/-- The struct `expirableValue[V]` (declared alike in both packages). -/
structure expirableValue (V : Type) where
  value : V
  expiration : Time
deriving DecidableEq, Repr

/-- The struct `CacheMissedResult[T]` (declared alike in both packages). -/
structure CacheMissedResult (V E : Type) where
  Value : V
  TTL : Duration
  Err : Option (error E)

/-- A non-nil `func(key K) CacheMissedResult[V]`: `r n key` is what the call
returns when `n` resolver invocations have been made before it. -/
abbrev Resolver (K V E : Type) := Nat → K → CacheMissedResult V E

/-- The type `map[K]expirableValue[V]`. -/
abbrev Store (K V : Type) := K → Option (expirableValue V)

/-- The empty map literal. -/
def Store.empty {K V : Type} : Store K V := fun _ => none

/-- The assignment `store[key] = val`. -/
def Store.put {K V : Type} [DecidableEq K] (store : Store K V) (key : K)
    (val : expirableValue V) : Store K V :=
  fun k => if k = key then some val else store k

/-- What the operations read from and do to their environment. -/
structure World where
  /-- successive readings of `time.Now()` -/
  clock : Nat → Time
  /-- number of readings taken so far -/
  reads : Nat
  /-- number of resolver invocations made so far -/
  calls : Nat
  /-- number of result channels made so far -/
  chans : Nat

namespace World

/-- The call `time.Now()`. -/
def Now (w : World) : Time × World :=
  (w.clock w.reads, { w with reads := w.reads + 1 })

/-- The call `resolver(key)`. -/
def invoke {K V E : Type} (w : World) (resolver : Resolver K V E) (key : K) :
    CacheMissedResult V E × World :=
  (resolver w.calls key, { w with calls := w.calls + 1 })

/-- The call `make(chan result[V])`: a channel not used before. -/
def makeChan (w : World) : Nat × World :=
  (w.chans, { w with chans := w.chans + 1 })

/-- The instant that the next call of `time.Now()` returns. -/
def instant (w : World) : Time := w.clock w.reads

end World

/-- The text of `fmt.Errorf("key (%v) has expired", key)`. -/
def expiredMsg {K : Type} [ToString K] (key : K) : String :=
  "key (" ++ toString key ++ ") has expired"

/-- The text of `fmt.Errorf("key (%v) not found", key)`. -/
def notFoundMsg {K : Type} [ToString K] (key : K) : String :=
  "key (" ++ toString key ++ ") not found"

/-! ## Package `simple` -/

namespace simple

/-- The struct `Cache[K, V]`. -/
structure Cache (K V : Type) where
  store : Store K V

/-- The constructor `NewCache`. -/
def NewCache {K V : Type} : Cache K V := { store := Store.empty }

/-- The function `Set`. -/
def Set {K V : Type} [DecidableEq K] (cache : Cache K V) (key : K) (value : V)
    (ttl : Duration) (w : World) : Cache K V × World :=
  let (now, w1) := w.Now
  ({ store := cache.store.put key { value := value, expiration := time.Add now ttl } }, w1)

/-- The function `Get`.  The result is the returned pair `(*V, error)`, the
cache after the call and the world after the call. -/
def Get {K V E : Type} [DecidableEq K] [ToString K] (cache : Cache K V) (key : K)
    (resolver : Option (Resolver K V E)) (w : World) :
    (Option V × Option (error E)) × Cache K V × World :=
  -- if ok { ... }
  let early : Option (Option V × Option (error E)) × World :=
    match cache.store key with
    | some val =>
      let (now, w1) := w.Now
      if time.Before now val.expiration then
        (some (some val.value, none), w1)
      else if resolver.isNone then
        (some (none, some (error.Errorf (expiredMsg key))), w1)
      else
        (none, w1)
    | none => (none, w)
  match early with
  | (some ret, w1) => (ret, cache, w1)
  | (none, w1) =>
    match resolver with
    | none => ((none, some (error.Errorf (notFoundMsg key))), cache, w1)
    | some resolver =>
      let (resolved, w2) := w1.invoke resolver key
      match resolved.Err with
      | some e => ((none, some e), cache, w2)
      | none =>
        let (cache1, w3) := Set cache key resolved.Value resolved.TTL w2
        ((some resolved.Value, none), cache1, w3)

end simple

/-! ## Package `channel` -/

namespace channel

/-- The type `operationType` with its constants `set` (0) and `get` (1). -/
inductive operationType where
  | set : operationType
  | get : operationType
deriving DecidableEq, Repr

/-- The struct `result[V]`. -/
structure result (V E : Type) where
  value : Option V
  err : Option (error E)
deriving DecidableEq

/-- The struct `operation[K, V]`.  A result channel is named by a number;
`none` is the nil channel. -/
structure operation (K V E : Type) where
  typ : operationType
  key : K
  value : V
  ttl : Duration
  resolver : Option (Resolver K V E)
  resolverError : Option (error E)
  relayGet : Bool
  resultChan : Option Nat

/-- A goroutine started by the worker. -/
inductive Spawned (K V E : Type) where
  /-- the goroutine `go func(innerOp operation[K, V]) {...}(op)` of the get case -/
  | resolution (innerOp : operation K V E) : Spawned K V E
  /-- the goroutine of the set case, which sends `msg` on `requests` -/
  | relay (msg : operation K V E) : Spawned K V E

/-- What one turn of the loop of `listen` leaves behind. -/
structure Handled (K V E : Type) where
  /-- the variable `store` after the turn -/
  store : Store K V
  /-- the sends `op.resultChan <- ...` made during the turn, in order -/
  sent : List (Option Nat × result V E)
  /-- the goroutines started during the turn, in order -/
  spawned : List (Spawned K V E)
  world : World

/-- One turn of the `for` loop of `listen`: the handling of the message `op`
received from `requests`, with `store` the worker's map before the turn. -/
def listen {K V E : Type} [DecidableEq K] [ToString K] [Inhabited K] [Inhabited V]
    (store : Store K V) (op : operation K V E) (w : World) : Handled K V E :=
  match op.typ with
  | operationType.get =>
    match op.resolverError with
    | some e =>
      { store := store, sent := [(op.resultChan, { value := none, err := some e })],
        spawned := [], world := w }
    | none =>
      -- if ok { ... }
      let early : Option (result V E) × World :=
        match store op.key with
        | some val =>
          let (now, w1) := w.Now
          if time.Before now val.expiration then
            (some { value := some val.value, err := none }, w1)
          else if op.resolver.isNone then
            (some { value := none, err := some (error.Errorf (expiredMsg op.key)) }, w1)
          else
            (none, w1)
        | none => (none, w)
      match early with
      | (some res, w1) =>
        { store := store, sent := [(op.resultChan, res)], spawned := [], world := w1 }
      | (none, w1) =>
        if op.resolver.isNone then
          { store := store,
            sent := [(op.resultChan,
              { value := none, err := some (error.Errorf (notFoundMsg op.key)) })],
            spawned := [], world := w1 }
        else
          { store := store, sent := [], spawned := [Spawned.resolution op], world := w1 }
  | operationType.set =>
    let (now, w1) := w.Now
    let store1 := store.put op.key { value := op.value, expiration := time.Add now op.ttl }
    if op.relayGet then
      { store := store1, sent := [],
        spawned := [Spawned.relay
          { typ := operationType.get, key := op.key, value := default, ttl := 0,
            resolver := op.resolver, resolverError := none, relayGet := false,
            resultChan := op.resultChan }],
        world := w1 }
    else
      { store := store1, sent := [], spawned := [], world := w1 }

/-- The body of a started goroutine: the message it sends on `requests`, if it
sends one.  A resolution goroutine calls the resolver (calling a nil `func`
panics: no message). -/
def Spawned.run {K V E : Type} [Inhabited K] [Inhabited V] (g : Spawned K V E) (w : World) :
    Option (operation K V E) × World :=
  match g with
  | Spawned.resolution innerOp =>
    match innerOp.resolver with
    | none => (none, w)
    | some resolver =>
      let (resolved, w1) := w.invoke resolver innerOp.key
      match resolved.Err with
      | some e =>
        (some { typ := operationType.get, key := default, value := default, ttl := 0,
                resolver := none, resolverError := some e, relayGet := false,
                resultChan := innerOp.resultChan }, w1)
      | none =>
        (some { typ := operationType.set, key := innerOp.key, value := resolved.Value,
                ttl := resolved.TTL, resolver := innerOp.resolver, resolverError := none,
                relayGet := true, resultChan := innerOp.resultChan }, w1)
  | Spawned.relay msg => (some msg, w)

/-- The struct `Cache[K, V]` together with the state of its worker: `store` is
the local variable `store` of the goroutine `listen` started by `NewCache`. -/
structure Cache (K V : Type) where
  store : Store K V

/-- The constructor `NewCache`: the worker starts with an empty map. -/
def NewCache {K V : Type} : Cache K V := { store := Store.empty }

/-- The worker serving one caller: it handles `op`, then the message of the
goroutine it started, and so on, until a result is sent on `resultChan` (which
the caller receives) or no message is left.  `fuel` bounds the number of
messages handled; `none` means that no result has been sent within the bound. -/
def serve {K V E : Type} [DecidableEq K] [ToString K] [Inhabited K] [Inhabited V] :
    Nat → Store K V → operation K V E → Nat → World →
      Option (result V E) × Store K V × World
  | 0, store, _, _, w => (none, store, w)
  | fuel + 1, store, op, resultChan, w =>
    let h := listen store op w
    match h.sent.find? (fun s => s.1 == some resultChan) with
    | some s => (some s.2, h.store, h.world)
    | none =>
      match h.spawned with
      | [] => (none, h.store, h.world)
      | g :: _ =>
        match g.run h.world with
        | (some msg, w1) => serve fuel h.store msg resultChan w1
        | (none, w1) => (none, h.store, w1)

/-- The function `Set`: the message is sent and the worker handles it. -/
def Set {K V : Type} [DecidableEq K] [ToString K] [Inhabited K] [Inhabited V]
    (cache : Cache K V) (key : K) (value : V) (ttl : Duration) (w : World) :
    Cache K V × World :=
  let h := listen (E := Empty) cache.store
    { typ := operationType.set, key := key, value := value, ttl := ttl, resolver := none,
      resolverError := none, relayGet := false, resultChan := none } w
  ({ store := h.store }, h.world)

/-- The function `Get`, with the worker allowed to handle `fuel` messages on
its behalf.  The result is the returned pair `(*V, error)` (`none` while the
caller is still waiting on its result channel), the cache and the world
afterwards. -/
def Get {K V E : Type} [DecidableEq K] [ToString K] [Inhabited K] [Inhabited V]
    (fuel : Nat) (cache : Cache K V) (key : K) (resolver : Option (Resolver K V E))
    (w : World) : Option (Option V × Option (error E)) × Cache K V × World :=
  let (resultChan, w0) := w.makeChan
  let (res, store1, w1) := serve fuel cache.store
    { typ := operationType.get, key := key, value := default, ttl := 0, resolver := resolver,
      resolverError := none, relayGet := false, resultChan := some resultChan } resultChan w0
  match res with
  | none => (none, { store := store1 }, w1)
  | some res =>
    match res.err with
    | some e => (some (none, some e), { store := store1 }, w1)
    | none => (some (res.value, none), { store := store1 }, w1)

end channel

/-! ## Sequences of operations -/

/-- A call of the library interface: `Set(cache, key, value, ttl)` or
`Get(cache, key, resolver)`. -/
inductive Op (K V E : Type) where
  | Set (key : K) (value : V) (ttl : Duration) : Op K V E
  | Get (key : K) (resolver : Option (Resolver K V E)) : Op K V E

/-- The calls `ops` made one after the other on the simple store; the list of
what the `Get` calls returned. -/
def simple.run {K V E : Type} [DecidableEq K] [ToString K] :
    List (Op K V E) → simple.Cache K V → World → List (Option V × Option (error E))
  | [], _, _ => []
  | Op.Set key value ttl :: ops, cache, w =>
    let (cache1, w1) := simple.Set cache key value ttl w
    simple.run ops cache1 w1
  | Op.Get key resolver :: ops, cache, w =>
    let (ret, cache1, w1) := simple.Get cache key resolver w
    ret :: simple.run ops cache1 w1

/-- The calls `ops` made one after the other on the channel store, the worker
handling at most `fuel` messages per call; the list of what the `Get` calls
returned, ending in `none` at a `Get` that has not returned (the calls after it
are not made). -/
def channel.run {K V E : Type} [DecidableEq K] [ToString K] [Inhabited K] [Inhabited V]
    (fuel : Nat) :
    List (Op K V E) → channel.Cache K V → World → List (Option (Option V × Option (error E)))
  | [], _, _ => []
  | Op.Set key value ttl :: ops, cache, w =>
    let (cache1, w1) := channel.Set cache key value ttl w
    channel.run fuel ops cache1 w1
  | Op.Get key resolver :: ops, cache, w =>
    let (ret, cache1, w1) := channel.Get fuel cache key resolver w
    match ret with
    | none => [none]
    | some _ => ret :: channel.run fuel ops cache1 w1

/-- The calls `Set(cache, key, value, ttl)` of the list made one after the
other on the simple store. -/
def simple.SetAll {K V : Type} [DecidableEq K] :
    List (K × V × Duration) → simple.Cache K V → World → simple.Cache K V × World
  | [], cache, w => (cache, w)
  | (key, value, ttl) :: rest, cache, w =>
    let (cache1, w1) := simple.Set cache key value ttl w
    simple.SetAll rest cache1 w1

/-- The worker of the channel store handling the messages `ops` one after the
other: its map and the world afterwards. -/
def channel.listenAll {K V E : Type} [DecidableEq K] [ToString K] [Inhabited K] [Inhabited V] :
    List (channel.operation K V E) → Store K V → World → Store K V × World
  | [], store, w => (store, w)
  | op :: rest, store, w =>
    let h := channel.listen store op w
    channel.listenAll rest h.store h.world

/-- The claim's description of the outcome of a sequence of writes for the key
`k`: the value and the write time plus ttl of the last write of the sequence
whose key is `k`, if there is one.  The first write of the sequence is made at
the reading `clock n`, the next one at `clock (n + 1)`, and so on. -/
def lastWrite {K V : Type} [DecidableEq K] (k : K) :
    List (K × V × Duration) → (Nat → Time) → Nat → Option (expirableValue V)
  | [], _, _ => none
  | (key, value, ttl) :: rest, clock, n =>
    match lastWrite k rest clock (n + 1) with
    | some entry => some entry
    | none => if key = k then some { value := value, expiration := clock n + ttl } else none

/-- The worker and the goroutines it starts, from the message `op` until no
message is left: every send made on a result channel, in order, with the map
and the world at the end.  `none` when a message is still to be handled after
`fuel` turns of the worker. -/
def channel.chain {K V E : Type} [DecidableEq K] [ToString K] [Inhabited K] [Inhabited V] :
    Nat → Store K V → channel.operation K V E → World →
      Option (List (Option Nat × channel.result V E) × Store K V × World)
  | 0, _, _, _ => none
  | fuel + 1, store, op, w =>
    let h := channel.listen store op w
    match h.spawned with
    | [] => some (h.sent, h.store, h.world)
    | g :: _ =>
      match g.run h.world with
      | (some msg, w1) =>
        match channel.chain fuel h.store msg w1 with
        | some (sent, store1, w2) => some (h.sent ++ sent, store1, w2)
        | none => none
      | (none, w1) => some (h.sent, h.store, w1)

/-- The message that `channel.Get(cache, key, resolver)` sends, with its result
channel. -/
def channel.getMsg {K V E : Type} [Inhabited V] (key : K) (resolver : Option (Resolver K V E))
    (resultChan : Nat) : channel.operation K V E :=
  { typ := channel.operationType.get, key := key, value := default, ttl := 0,
    resolver := resolver, resolverError := none, relayGet := false,
    resultChan := some resultChan }

/-- What `channel.Get` returns for the result `res` received on its result
channel (lines 45 to 49). -/
def channel.returned {V E : Type} (res : channel.result V E) : Option V × Option (error E) :=
  match res.err with
  | some e => (none, some e)
  | none => (res.value, none)

/-! ## Sample inputs -/

/-- A world whose clock shows `t` at every reading. -/
def frozenAt (t : Time) : World :=
  { clock := fun _ => t, reads := 0, calls := 0, chans := 0 }

/-- A world whose `n`-th clock reading is `n`. -/
def ticking : World :=
  { clock := fun n => (n : Int), reads := 0, calls := 0, chans := 0 }

/-- A resolver that answers every call with value 7, ttl 0 and no error. -/
def zeroTTL : Resolver Int Int Empty :=
  fun _ _ => { Value := 7, TTL := 0, Err := none }

/-- A resolver that answers every call with value 7, ttl 1 and no error. -/
def oneTTL : Resolver Int Int Empty :=
  fun _ _ => { Value := 7, TTL := 1, Err := none }

/-- A resolver that answers every call with value 7, ttl 5 and no error. -/
def fiveTTL : Resolver Int Int Empty :=
  fun _ _ => { Value := 7, TTL := 5, Err := none }

/-- A resolver whose first call returns ttl 0 and whose later calls return
ttl 5; the value returned is the number of calls made before. -/
def warming : Resolver Int Int Empty :=
  fun n _ => { Value := (n : Int), TTL := if n = 0 then 0 else 5, Err := none }

/-- A world whose clock reads 0 first and `10 + n` at the `n`-th reading after. -/
def stalled : World :=
  { clock := fun n => if n = 0 then 0 else 10 + (n : Int), reads := 0, calls := 0, chans := 0 }

/-- The message that `channel.Set(cache, key, value, ttl)` sends. -/
def setMsg (key value : Int) (ttl : Duration) : channel.operation Int Int Empty :=
  { typ := channel.operationType.set, key := key, value := value, ttl := ttl, resolver := none,
    resolverError := none, relayGet := false, resultChan := none }

/-! ## Round trip and expiry -/

/-- C1 (round trip, both stores): for every prior store state, key `k`, value
`v` and ttl `t`, after `Set(k, v, t)` whose clock reading is `w.instant`, a
`Get(k, nil)` whose clock reading `r.instant` is before `w.instant + t` returns
`v` and no error; the channel store does so as soon as the worker handles the
one message of the call.  With `w.instant ≤ r.instant` the hypothesis forces
`0 < t`; neither is needed for the conclusion. -/
theorem C1_round_trip {K V E : Type} [DecidableEq K] [ToString K] [Inhabited K] [Inhabited V]
    (cs : simple.Cache K V) (cc : channel.Cache K V) (k : K) (v : V) (t : Duration)
    (w r : World) (fuel : Nat) (hr : r.instant < w.instant + t) :
    (simple.Get (E := E) (simple.Set cs k v t w).1 k none r).1 = (some v, none) ∧
    (channel.Get (E := E) (fuel + 1) (channel.Set cc k v t w).1 k none r).1
      = some (some v, none) := by
  constructor
  · simp [simple.Get, simple.Set, World.Now, Store.put, time.Before, time.Add, World.instant] at *
    simp [hr]
  · simp [channel.Get, channel.Set, channel.serve, channel.listen, World.Now, World.makeChan,
      Store.put, time.Before, time.Add, World.instant] at *
    simp [hr]

/-- Witness of C1: key 1, value 7, ttl 5 written at instant 10 and read at
instant 12, on new caches. -/
theorem C1_round_trip_witness :
    (frozenAt 12).instant < (frozenAt 10).instant + 5 ∧
    (simple.Get (E := Empty) (simple.Set simple.NewCache (1 : Int) (7 : Int) 5 (frozenAt 10)).1
      1 none (frozenAt 12)).1 = (some 7, none) ∧
    (channel.Get (E := Empty) (0 + 1)
      (channel.Set channel.NewCache (1 : Int) (7 : Int) 5 (frozenAt 10)).1
      1 none (frozenAt 12)).1 = some (some 7, none) :=
  ⟨by decide, C1_round_trip simple.NewCache channel.NewCache 1 7 5 (frozenAt 10) (frozenAt 12) 0
    (by decide)⟩

/-- C2 (expiry, both stores): for every key `k`, value `v` and ttl `t` of any
sign, after `Set(k, v, t)` whose clock reading is `w.instant`, and with the
entry of `k` not written since (the caches `cs1`, `cc1` hold for `k` what the
`Set` left), a `Get(k, nil)` whose clock reading is at or after `w.instant + t`
returns a nil value and the error "key (k) has expired"; the store is not
changed by it. -/
theorem C2_expiry {K V E : Type} [DecidableEq K] [ToString K] [Inhabited K] [Inhabited V]
    (cs cs1 : simple.Cache K V) (cc cc1 : channel.Cache K V) (k : K) (v : V) (t : Duration)
    (w r : World) (fuel : Nat)
    (hs : cs1.store k = (simple.Set cs k v t w).1.store k)
    (hc : cc1.store k = (channel.Set cc k v t w).1.store k)
    (hr : w.instant + t ≤ r.instant) :
    ((simple.Get (E := E) cs1 k none r).1 = (none, some (error.Errorf (expiredMsg k))) ∧
      (simple.Get (E := E) cs1 k none r).2.1 = cs1) ∧
    ((channel.Get (E := E) (fuel + 1) cc1 k none r).1
        = some (none, some (error.Errorf (expiredMsg k))) ∧
      (channel.Get (E := E) (fuel + 1) cc1 k none r).2.1 = cc1) := by
  have hnot : ¬ r.instant < w.instant + t := not_lt.mpr hr
  simp only [simple.Set, channel.Set, channel.listen, World.Now, Store.put, time.Add,
    if_true, Bool.false_eq_true, if_false] at hs hc
  simp only [World.instant] at hnot
  constructor
  · simp [simple.Get, hs, World.Now, time.Before, hnot]
  · simp [channel.Get, channel.serve, channel.listen, hc, World.Now, World.makeChan,
      time.Before, hnot]

/-- Witness of C2: key 1 written with ttl 5 at instant 10 and read at the
expiry instant 15 itself. -/
theorem C2_expiry_witness :
    (simple.Get (E := Empty) (simple.Set simple.NewCache (1 : Int) (7 : Int) 5 (frozenAt 10)).1
      1 none (frozenAt 15)).1 = (none, some (error.Errorf (expiredMsg (1 : Int)))) ∧
    (channel.Get (E := Empty) (0 + 1)
      (channel.Set channel.NewCache (1 : Int) (7 : Int) 5 (frozenAt 10)).1
      1 none (frozenAt 15)).1 = some (none, some (error.Errorf (expiredMsg (1 : Int)))) :=
  have h := C2_expiry (E := Empty) simple.NewCache
    (simple.Set simple.NewCache (1 : Int) (7 : Int) 5 (frozenAt 10)).1 channel.NewCache
    (channel.Set channel.NewCache (1 : Int) (7 : Int) 5 (frozenAt 10)).1 1 7 5
    (frozenAt 10) (frozenAt 15) 0 rfl rfl (by decide)
  ⟨h.1.1, h.2.1⟩

/-! ## Resolution on a miss -/

/-- On the channel store a resolver whose results for `k` never carry an error
and never a positive ttl keeps the worker and the resolution goroutines passing
messages for ever: whatever the bound on the messages handled, no result is
sent, neither from a get message for `k` met by an absent or expired entry nor
from the relaying set message.  The clock `c` is any non-decreasing one. -/
theorem channel.serve_never_replies {K V E : Type} [DecidableEq K] [ToString K] [Inhabited K]
    [Inhabited V] (k : K) (r : Resolver K V E) (ch : Nat) (c : Nat → Time)
    (hmono : ∀ i, c i ≤ c (i + 1))
    (hr : ∀ n, (r n k).Err = none ∧ (r n k).TTL ≤ 0) :
    ∀ (fuel : Nat) (store : Store K V) (op : channel.operation K V E) (w : World),
      w.clock = c →
      ((op.typ = channel.operationType.get ∧ op.key = k ∧ op.resolver = some r ∧
          op.resolverError = none ∧ op.resultChan = some ch ∧
          ∀ val, store k = some val → val.expiration ≤ w.instant) ∨
        (op.typ = channel.operationType.set ∧ op.key = k ∧ op.resolver = some r ∧
          op.relayGet = true ∧ op.resultChan = some ch ∧ op.ttl ≤ 0)) →
      (channel.serve fuel store op ch w).1 = none := by
  intro fuel
  induction fuel with
  | zero => intro store op w _ _; rfl
  | succ n ih =>
    intro store op w hc h
    rcases h with ⟨h1, h2, h3, h4, h5, hexp⟩ | ⟨h1, h2, h3, h4, h5, httl⟩
    · obtain ⟨he, ht⟩ := hr w.calls
      cases hs : store k with
      | none =>
        simp only [channel.serve, channel.listen, h1, h2, h3, h4, h5, hs, Option.isNone_some,
          Bool.false_eq_true, if_false, List.find?_nil, channel.Spawned.run, World.invoke, he]
        exact ih _ _ _ hc (Or.inr ⟨rfl, rfl, rfl, rfl, rfl, ht⟩)
      | some val =>
        have hv : ¬ w.clock w.reads < val.expiration := not_lt.mpr (hexp val hs)
        simp only [channel.serve, channel.listen, h1, h2, h3, h4, h5, hs, Option.isNone_some,
          Bool.false_eq_true, if_false, List.find?_nil, channel.Spawned.run, World.invoke, he,
          World.Now, time.Before, hv, decide_False]
        exact ih _ _ _ hc (Or.inr ⟨rfl, rfl, rfl, rfl, rfl, ht⟩)
    · simp only [channel.serve, channel.listen, h1, h2, h3, h4, h5, if_true, List.find?_nil,
        channel.Spawned.run, World.Now]
      refine ih _ _ _ hc (Or.inl ⟨rfl, rfl, rfl, rfl, rfl, ?_⟩)
      intro val hval
      simp only [Store.put, if_true, Option.some.injEq] at hval
      subst hval
      simp only [World.instant, time.Add, hc]
      have := hmono w.reads
      linarith

/-- A `Get` of the channel store returns nothing as long as the worker has sent
nothing on its result channel. -/
theorem channel.Get_waits {K V E : Type} [DecidableEq K] [ToString K] [Inhabited K]
    [Inhabited V] (fuel : Nat) (cache : channel.Cache K V) (k : K)
    (resolver : Option (Resolver K V E)) (w : World)
    (h : (channel.serve fuel cache.store
      { typ := channel.operationType.get, key := k, value := default, ttl := 0,
        resolver := resolver, resolverError := none, relayGet := false,
        resultChan := some w.chans } w.chans { w with chans := w.chans + 1 }).1 = none) :
    (channel.Get fuel cache k resolver w).1 = none := by
  simp only [channel.Get, World.makeChan]
  split
  · rfl
  · rename_i res hres
    rw [hres] at h
    exact absurd h (by simp)

/-- The zero-ttl resolver on a new channel cache, with the clock standing
still: the caller of `Get` is never answered. -/
theorem channel.Get_zeroTTL_waits (fuel : Nat) :
    (channel.Get fuel channel.NewCache (1 : Int) (some zeroTTL) (frozenAt 0)).1 = none := by
  apply channel.Get_waits
  apply channel.serve_never_replies 1 zeroTTL _ (fun _ => 0) (fun _ => le_refl _)
    (fun _ => ⟨rfl, le_refl _⟩) fuel _ _ _ rfl
  left
  refine ⟨rfl, rfl, rfl, rfl, rfl, ?_⟩
  intro val hval
  simp [channel.NewCache, Store.empty] at hval

/-- On the channel store, when every ttl the resolver returns for `k` has run
out by the next reading of the clock `c` (and the resolver returns no error),
no result is ever sent: neither from a get message for `k` met by an absent or
expired entry nor from the relaying set message, whatever the bound on the
messages handled. -/
theorem channel.serve_never_replies_in_time {K V E : Type} [DecidableEq K] [ToString K]
    [Inhabited K] [Inhabited V] (k : K) (r : Resolver K V E) (ch : Nat) (c : Nat → Time)
    (herr : ∀ n, (r n k).Err = none)
    (hshort : ∀ n i, c i + (r n k).TTL ≤ c (i + 1)) :
    ∀ (fuel : Nat) (store : Store K V) (op : channel.operation K V E) (w : World),
      w.clock = c →
      ((op.typ = channel.operationType.get ∧ op.key = k ∧ op.resolver = some r ∧
          op.resolverError = none ∧ op.resultChan = some ch ∧
          ∀ val, store k = some val → val.expiration ≤ w.instant) ∨
        (op.typ = channel.operationType.set ∧ op.key = k ∧ op.resolver = some r ∧
          op.relayGet = true ∧ op.resultChan = some ch ∧ ∀ i, c i + op.ttl ≤ c (i + 1))) →
      (channel.serve fuel store op ch w).1 = none := by
  intro fuel
  induction fuel with
  | zero => intro store op w _ _; rfl
  | succ n ih =>
    intro store op w hc h
    rcases h with ⟨h1, h2, h3, h4, h5, hexp⟩ | ⟨h1, h2, h3, h4, h5, httl⟩
    · have he := herr w.calls
      have ht : ∀ i, c i + (r w.calls k).TTL ≤ c (i + 1) := hshort w.calls
      cases hs : store k with
      | none =>
        simp only [channel.serve, channel.listen, h1, h2, h3, h4, h5, hs, Option.isNone_some,
          Bool.false_eq_true, if_false, List.find?_nil, channel.Spawned.run, World.invoke, he]
        exact ih _ _ _ hc (Or.inr ⟨rfl, rfl, rfl, rfl, rfl, ht⟩)
      | some val =>
        have hv : ¬ w.clock w.reads < val.expiration := not_lt.mpr (hexp val hs)
        simp only [channel.serve, channel.listen, h1, h2, h3, h4, h5, hs, Option.isNone_some,
          Bool.false_eq_true, if_false, List.find?_nil, channel.Spawned.run, World.invoke, he,
          World.Now, time.Before, hv, decide_False]
        exact ih _ _ _ hc (Or.inr ⟨rfl, rfl, rfl, rfl, rfl, ht⟩)
    · simp only [channel.serve, channel.listen, h1, h2, h3, h4, h5, if_true, List.find?_nil,
        channel.Spawned.run, World.Now]
      refine ih _ _ _ hc (Or.inl ⟨rfl, rfl, rfl, rfl, rfl, ?_⟩)
      intro val hval
      simp only [Store.put, if_true, Option.some.injEq] at hval
      subst hval
      simp only [World.instant, time.Add, hc]
      exact httl w.reads

/-- The ttl-1 resolver on a new channel cache, with the clock reading
0, 1, 2, ...: the caller of `Get` is never answered. -/
theorem channel.Get_oneTTL_waits (fuel : Nat) :
    (channel.Get fuel channel.NewCache (1 : Int) (some oneTTL) ticking).1 = none := by
  apply channel.Get_waits
  apply channel.serve_never_replies_in_time 1 oneTTL _ (fun n => (n : Int)) (fun _ => rfl)
    (fun _ i => by simp [oneTTL]) fuel _ _ _ rfl
  left
  refine ⟨rfl, rfl, rfl, rfl, rfl, ?_⟩
  intro val hval
  simp [channel.NewCache, Store.empty] at hval

/-- C3 at its failing inputs, on a new cache of each store.  With the resolver
that returns value 7, ttl 0 and no error and the clock standing still,
`Get(1, resolver)` of the simple store returns 7 and stores it, while on the
channel store the chain get, resolution, relaying set, relayed get never ends
in a reply: the caller is not answered however many messages the worker
handles, so 7 is never delivered.  The same happens with ttl 1 when the clock
advances by 1 between the worker's write and its handling of the relayed
get. -/
theorem C3_resolved_value_not_delivered :
    ((simple.Get simple.NewCache (1 : Int) (some zeroTTL) (frozenAt 0)).1 = (some 7, none) ∧
      (simple.Get simple.NewCache (1 : Int) (some zeroTTL) (frozenAt 0)).2.1.store 1
        = some { value := 7, expiration := 0 }) ∧
    ((∀ fuel : Nat,
        (channel.Get fuel channel.NewCache (1 : Int) (some zeroTTL) (frozenAt 0)).1 = none) ∧
      ¬ ∃ fuel : Nat,
        (channel.Get fuel channel.NewCache (1 : Int) (some zeroTTL) (frozenAt 0)).1
          = some (some 7, none)) ∧
    ((simple.Get simple.NewCache (1 : Int) (some oneTTL) ticking).1 = (some 7, none) ∧
      ∀ fuel : Nat,
        (channel.Get fuel channel.NewCache (1 : Int) (some oneTTL) ticking).1 = none) := by
  refine ⟨⟨by rfl, by rfl⟩, ⟨channel.Get_zeroTTL_waits, ?_⟩, ⟨by rfl, channel.Get_oneTTL_waits⟩⟩
  rintro ⟨fuel, h⟩
  rw [channel.Get_zeroTTL_waits fuel] at h
  exact absurd h (by simp)

/-- When the relayed get is handled in time, the channel store does deliver:
on a new cache, when the resolver returns `v`, ttl `t` and no error, the worker
writes at the reading `w.instant`, and the relayed get is handled at a reading
before `w.instant + t`, then `Get(k, resolver)` returns `v` with no error once
three messages (get, relaying set, relayed get) are handled, the store holds
`(v, w.instant + t)` for `k`, and a later `Get(k, nil)` read before
`w.instant + t` returns `v` as well. -/
theorem channel.Get_delivers_when_relayed_in_time {K V E : Type} [DecidableEq K] [ToString K]
    [Inhabited K] [Inhabited V] (k : K) (v : V) (t : Duration) (resolver : Resolver K V E)
    (w r : World) (fuel : Nat)
    (hres : resolver w.calls k = { Value := v, TTL := t, Err := none })
    (hrelay : w.clock (w.reads + 1) < w.instant + t)
    (hlater : r.instant < w.instant + t) :
    (channel.Get (fuel + 3) channel.NewCache k (some resolver) w).1 = some (some v, none) ∧
    (channel.Get (fuel + 3) channel.NewCache k (some resolver) w).2.1.store k
      = some { value := v, expiration := w.instant + t } ∧
    (channel.Get (E := E) (fuel + 1)
      (channel.Get (fuel + 3) channel.NewCache k (some resolver) w).2.1 k none r).1
      = some (some v, none) := by
  simp only [World.instant] at hrelay hlater
  simp [channel.Get, channel.serve, channel.listen, channel.Spawned.run, channel.NewCache,
    Store.empty, Store.put, World.Now, World.makeChan, World.invoke, World.instant, time.Before,
    time.Add, hres, hrelay, hlater]

/-- An instance of delivery in time: key 1, the resolver returning value 7 with
ttl 5, the clock reading 0, 1, 2, ... and a later read at instant 4. -/
theorem channel.Get_delivers_when_relayed_in_time_example :
    (channel.Get (0 + 3) channel.NewCache (1 : Int) (some fiveTTL) ticking).1
      = some (some 7, none) :=
  (channel.Get_delivers_when_relayed_in_time (1 : Int) (7 : Int) 5 fiveTTL
    ticking (frozenAt 4) 0 rfl (by decide) (by decide)).1

/-- C4 (miss then resolve, simple store): for every store state in which `k` is
absent or expired at the reading of the call, when the resolver returns `v`,
ttl `t` and no error, `Get(k, resolver)` returns `v` with no error and leaves
`(v, write time + t)` stored for `k`, the write time being the reading taken by
`Set` (the one after the reading of the expiry test when there was an entry to
test); a later `Get(k, nil)` read before that expiry returns `v`. -/
theorem C4_miss_then_resolve_simple {K V E : Type} [DecidableEq K] [ToString K]
    (cache : simple.Cache K V) (k : K) (v : V) (t : Duration) (resolver : Resolver K V E)
    (w : World)
    (hmiss : ∀ val, cache.store k = some val → val.expiration ≤ w.instant)
    (hres : resolver w.calls k = { Value := v, TTL := t, Err := none }) :
    (simple.Get cache k (some resolver) w).1 = (some v, none) ∧
    (simple.Get cache k (some resolver) w).2.1.store k
      = some { value := v,
               expiration :=
                w.clock (if (cache.store k).isSome then w.reads + 1 else w.reads) + t } ∧
    ∀ r : World,
      r.instant < w.clock (if (cache.store k).isSome then w.reads + 1 else w.reads) + t →
      (simple.Get (E := E) (simple.Get cache k (some resolver) w).2.1 k none r).1
        = (some v, none) := by
  cases hs : cache.store k with
  | none =>
    simp [simple.Get, simple.Set, hs, World.invoke, World.Now, World.instant, hres, Store.put,
      time.Add, time.Before]
    intro r hr
    simp [hr]
  | some val =>
    have hv : ¬ w.clock w.reads < val.expiration := not_lt.mpr (hmiss val hs)
    simp [simple.Get, simple.Set, hs, World.invoke, World.Now, World.instant, hres, Store.put,
      time.Add, time.Before, hv]
    intro r hr
    simp [hr]

/-- Witness of C4: key 1 expired in the store (expiry 0, clock at 3), resolved
to value 7 with ttl 5. -/
theorem C4_miss_then_resolve_simple_witness :
    (simple.Get
      (simple.Set simple.NewCache (1 : Int) (9 : Int) 0 (frozenAt 0)).1 1
      (some (fun _ _ => ({ Value := 7, TTL := 5, Err := none } : CacheMissedResult Int Empty)))
      (frozenAt 3)).1 = (some 7, none) :=
  (C4_miss_then_resolve_simple
    (simple.Set simple.NewCache (1 : Int) (9 : Int) 0 (frozenAt 0)).1 1 7 5
    (fun _ _ => ({ Value := 7, TTL := 5, Err := none } : CacheMissedResult Int Empty))
    (frozenAt 3)
    (by
      intro val h
      simp only [simple.Set, World.Now, Store.put, if_true, Option.some.injEq] at h
      subst h
      decide)
    rfl).1

/-- C5 (resolver failure, both stores): for every store state in which `k` is
absent or expired at the reading of the call and every error `e`, when the
resolver returns `Err = e`, `Get(k, resolver)` returns a nil value and `e`
itself, the store is left as it was, and a `Get(k, nil)` at a reading not
before that of the failed call fails with one of the two not-found errors.
The channel store answers once the worker has handled the get message and the
failure message of the resolution goroutine. -/
theorem C5_resolver_failure {K V E : Type} [DecidableEq K] [ToString K] [Inhabited K]
    [Inhabited V] (cs : simple.Cache K V) (cc : channel.Cache K V) (k : K)
    (resolver : Resolver K V E) (e : error E) (w r : World) (fuel : Nat)
    (hs : ∀ val, cs.store k = some val → val.expiration ≤ w.instant)
    (hc : ∀ val, cc.store k = some val → val.expiration ≤ w.instant)
    (hres : (resolver w.calls k).Err = some e)
    (hr : w.instant ≤ r.instant) :
    ((simple.Get cs k (some resolver) w).1 = (none, some e) ∧
      (simple.Get cs k (some resolver) w).2.1 = cs ∧
      ((simple.Get (E := E) (simple.Get cs k (some resolver) w).2.1 k none r).1
          = (none, some (error.Errorf (expiredMsg k))) ∨
        (simple.Get (E := E) (simple.Get cs k (some resolver) w).2.1 k none r).1
          = (none, some (error.Errorf (notFoundMsg k))))) ∧
    ((channel.Get (fuel + 2) cc k (some resolver) w).1 = some (none, some e) ∧
      (channel.Get (fuel + 2) cc k (some resolver) w).2.1 = cc ∧
      ((channel.Get (E := E) (fuel + 1) (channel.Get (fuel + 2) cc k (some resolver) w).2.1
            k none r).1 = some (none, some (error.Errorf (expiredMsg k))) ∨
        (channel.Get (E := E) (fuel + 1) (channel.Get (fuel + 2) cc k (some resolver) w).2.1
            k none r).1 = some (none, some (error.Errorf (notFoundMsg k))))) := by
  simp only [World.instant] at hs hc hr
  constructor
  · cases hk : cs.store k with
    | none =>
      simp [simple.Get, hk, World.invoke, hres]
    | some val =>
      have hv : ¬ w.clock w.reads < val.expiration := not_lt.mpr (hs val hk)
      have hv2 : ¬ r.clock r.reads < val.expiration := not_lt.mpr (le_trans (hs val hk) hr)
      simp [simple.Get, hk, World.invoke, World.Now, time.Before, hres, hv, hv2]
  · cases hk : cc.store k with
    | none =>
      simp [channel.Get, channel.serve, channel.listen, channel.Spawned.run, hk, World.invoke,
        World.makeChan, hres]
    | some val =>
      have hv : ¬ w.clock w.reads < val.expiration := not_lt.mpr (hc val hk)
      have hv2 : ¬ r.clock r.reads < val.expiration := not_lt.mpr (le_trans (hc val hk) hr)
      simp [channel.Get, channel.serve, channel.listen, channel.Spawned.run, hk, World.invoke,
        World.makeChan, World.Now, time.Before, hres, hv, hv2]

/-- Witness of C5: new caches, key 1, a resolver that fails with `custom 3`. -/
theorem C5_resolver_failure_witness :
    (simple.Get simple.NewCache (1 : Int)
      (some (fun _ _ =>
        ({ Value := 0, TTL := 5, Err := some (error.custom 3) } : CacheMissedResult Int Nat)))
      (frozenAt 0)).1 = (none, some (error.custom 3)) ∧
    (channel.Get (0 + 2) channel.NewCache (1 : Int)
      (some (fun _ _ =>
        ({ Value := 0, TTL := 5, Err := some (error.custom 3) } : CacheMissedResult Int Nat)))
      (frozenAt 0)).1 = some (none, some (error.custom 3)) :=
  have h := C5_resolver_failure simple.NewCache channel.NewCache (1 : Int)
    (fun _ _ =>
      ({ Value := 0, TTL := 5, Err := some (error.custom 3) } : CacheMissedResult Int Nat))
    (error.custom 3) (frozenAt 0) (frozenAt 0) 0
    (by intro val h; simp [simple.NewCache, Store.empty] at h)
    (by intro val h; simp [channel.NewCache, Store.empty] at h)
    rfl (le_refl _)
  ⟨h.1.1, h.2.1⟩

/-- On the simple store a `Get` that misses with a resolver invokes it once. -/
theorem simple.Get_miss_calls {K V E : Type} [DecidableEq K] [ToString K]
    (cache : simple.Cache K V) (k : K) (resolver : Resolver K V E) (w : World)
    (hmiss : ∀ val, cache.store k = some val → val.expiration ≤ w.instant) :
    (simple.Get cache k (some resolver) w).2.2.calls = w.calls + 1 := by
  cases hs : cache.store k with
  | none =>
    cases he : (resolver w.calls k).Err <;>
      simp [simple.Get, simple.Set, hs, World.invoke, World.Now, he]
  | some val =>
    have hv : ¬ w.clock w.reads < val.expiration := not_lt.mpr (hmiss val hs)
    cases he : (resolver w.calls k).Err <;>
      simp [simple.Get, simple.Set, hs, World.invoke, World.Now, time.Before, hv, he]

/-- C6 at its failing inputs.  With the resolver that returns value 7 and
ttl 0, on new caches and a clock standing still: the simple store returns 7
after one invocation, while on the channel store the relayed get starts a
second resolution (two invocations once three messages are handled) and the
caller is never answered.  With the resolver that returns ttl 5 and a relayed
get that is handled after the expiry, the channel store answers 7 after two
invocations. -/
theorem C6_second_resolution :
    ((simple.Get simple.NewCache (1 : Int) (some zeroTTL) (frozenAt 0)).1 = (some 7, none) ∧
      (simple.Get simple.NewCache (1 : Int) (some zeroTTL) (frozenAt 0)).2.2.calls = 1) ∧
    ((channel.Get 3 channel.NewCache (1 : Int) (some zeroTTL) (frozenAt 0)).2.2.calls = 2 ∧
      ∀ fuel : Nat,
        (channel.Get fuel channel.NewCache (1 : Int) (some zeroTTL) (frozenAt 0)).1 = none) ∧
    ((channel.Get 5 channel.NewCache (1 : Int) (some fiveTTL) stalled).1 = some (some 7, none) ∧
      (channel.Get 5 channel.NewCache (1 : Int) (some fiveTTL) stalled).2.2.calls = 2) := by
  refine ⟨⟨by rfl, by rfl⟩, ⟨by rfl, channel.Get_zeroTTL_waits⟩, ⟨by rfl, by rfl⟩⟩

/-- C7 at its failing inputs, new caches and a clock standing still.  The one
call `Get(1, resolver)` with the resolver returning value 7 and ttl 0 returns 7
on the simple store and does not return on the channel store, whatever the
number of messages handled; with the resolver whose first call returns
(0, ttl 0) and whose second call returns (1, ttl 5), the simple store returns 0
and the channel store returns 1. -/
theorem C7_stores_differ :
    (simple.run [Op.Get (1 : Int) (some zeroTTL)] simple.NewCache (frozenAt 0)
        = [(some 7, none)] ∧
      ∀ fuel : Nat,
        channel.run fuel [Op.Get (1 : Int) (some zeroTTL)] channel.NewCache (frozenAt 0)
          = [none]) ∧
    (simple.run [Op.Get (1 : Int) (some warming)] simple.NewCache (frozenAt 0)
        = [(some 0, none)] ∧
      channel.run 5 [Op.Get (1 : Int) (some warming)] channel.NewCache (frozenAt 0)
        = [some (some 1, none)]) := by
  refine ⟨⟨by rfl, ?_⟩, ⟨by rfl, by rfl⟩⟩
  intro fuel
  have h := channel.Get_zeroTTL_waits fuel
  simp only [channel.run]
  split
  · rfl
  · rename_i heq
    rw [heq] at h
    exact absurd h (by simp)

/-! ## Get without a resolver, and hits -/

/-- The two messages built by the cache differ, whatever the key. -/
theorem expiredMsg_ne_notFoundMsg {K : Type} [ToString K] (k : K) :
    expiredMsg k ≠ notFoundMsg k := by
  intro h
  have h2 := congrArg String.data h
  simp only [expiredMsg, notFoundMsg, String.data_append, List.append_cancel_left_eq] at h2
  exact absurd h2 (by decide)

/-- With a nil resolver the channel store answers after one message, with what
the simple store returns on the same map, and neither changes the map. -/
theorem channel.Get_nil_eq_simple {K V E : Type} [DecidableEq K] [ToString K] [Inhabited K]
    [Inhabited V] (store : Store K V) (k : K) (w : World) (fuel : Nat) :
    (channel.Get (E := E) (fuel + 1) { store := store } k none w).1
      = some (simple.Get (E := E) { store := store } k none w).1 ∧
    (channel.Get (E := E) (fuel + 1) { store := store } k none w).2.1.store = store ∧
    (simple.Get (E := E) { store := store } k none w).2.1.store = store := by
  cases hs : store k with
  | none =>
    simp [channel.Get, channel.serve, channel.listen, simple.Get, hs, World.makeChan]
  | some val =>
    by_cases hv : w.clock w.reads < val.expiration <;>
      simp [channel.Get, channel.serve, channel.listen, simple.Get, hs, World.makeChan,
        World.Now, time.Before, hv]

/-- C8 (get with a nil resolver, both stores): for every store state, key `k`
and reading `w.instant`, `Get(k, nil)` fails exactly when `k` is absent or its
entry has `expiration ≤ w.instant`; when it fails the value is nil and the store
is unchanged; the error is "key (k) has expired" exactly when the entry is
present and expired, and "key (k) not found" exactly when it is absent.  The
channel store answers once its one message is handled. -/
theorem C8_get_nil_resolver {K V E : Type} [DecidableEq K] [ToString K] [Inhabited K]
    [Inhabited V] (cs : simple.Cache K V) (cc : channel.Cache K V) (k : K) (w : World)
    (fuel : Nat) :
    (((simple.Get (E := E) cs k none w).1.2 ≠ none ↔
        (cs.store k = none ∨ ∃ val, cs.store k = some val ∧ val.expiration ≤ w.instant)) ∧
      ((simple.Get (E := E) cs k none w).1.2 ≠ none →
        (simple.Get (E := E) cs k none w).1.1 = none ∧
        (simple.Get (E := E) cs k none w).2.1 = cs) ∧
      ((simple.Get (E := E) cs k none w).1.2 = some (error.Errorf (expiredMsg k)) ↔
        ∃ val, cs.store k = some val ∧ val.expiration ≤ w.instant) ∧
      ((simple.Get (E := E) cs k none w).1.2 = some (error.Errorf (notFoundMsg k)) ↔
        cs.store k = none)) ∧
    (∃ ret : Option V × Option (error E),
      (channel.Get (E := E) (fuel + 1) cc k none w).1 = some ret ∧
      (ret.2 ≠ none ↔
        (cc.store k = none ∨ ∃ val, cc.store k = some val ∧ val.expiration ≤ w.instant)) ∧
      (ret.2 ≠ none →
        ret.1 = none ∧ (channel.Get (E := E) (fuel + 1) cc k none w).2.1 = cc) ∧
      (ret.2 = some (error.Errorf (expiredMsg k)) ↔
        ∃ val, cc.store k = some val ∧ val.expiration ≤ w.instant) ∧
      (ret.2 = some (error.Errorf (notFoundMsg k)) ↔ cc.store k = none)) := by
  have key : ∀ store : Store K V,
      (((simple.Get (E := E) { store := store } k none w).1.2 ≠ none ↔
        (store k = none ∨ ∃ val, store k = some val ∧ val.expiration ≤ w.instant)) ∧
      ((simple.Get (E := E) { store := store } k none w).1.2 ≠ none →
        (simple.Get (E := E) { store := store } k none w).1.1 = none) ∧
      ((simple.Get (E := E) { store := store } k none w).1.2
          = some (error.Errorf (expiredMsg k)) ↔
        ∃ val, store k = some val ∧ val.expiration ≤ w.instant) ∧
      ((simple.Get (E := E) { store := store } k none w).1.2
          = some (error.Errorf (notFoundMsg k)) ↔ store k = none)) := by
    intro store
    have hne := expiredMsg_ne_notFoundMsg k
    cases hs : store k with
    | none =>
      simp [simple.Get, hs, hne.symm]
    | some val =>
      by_cases hv : w.clock w.reads < val.expiration
      · simp [simple.Get, hs, World.Now, World.instant, time.Before, hv]
      · simp [simple.Get, hs, World.Now, World.instant, time.Before, hv, hne, not_lt.mp hv]
  constructor
  · obtain ⟨store⟩ := cs
    obtain ⟨h1, h2, h3, h4⟩ := key store
    refine ⟨h1, fun h => ⟨h2 h, ?_⟩, h3, h4⟩
    have := (channel.Get_nil_eq_simple (E := E) store k w 0).2.2
    cases hg : (simple.Get (E := E) { store := store } k none w).2.1
    rw [hg] at this
    simp only at this
    rw [this]
  · obtain ⟨store⟩ := cc
    obtain ⟨h1, h2, h3, h4⟩ := key store
    obtain ⟨e1, e2, _⟩ := channel.Get_nil_eq_simple (E := E) store k w fuel
    refine ⟨_, e1, h1, fun h => ⟨h2 h, ?_⟩, h3, h4⟩
    cases hg : (channel.Get (E := E) (fuel + 1) { store := store } k none w).2.1
    rw [hg] at e2
    simp only at e2
    rw [e2]

/-! ## Sequences of writes -/

/-- After a sequence of `Set` calls the simple store holds for `k` the entry of
the last call that wrote `k`, or what it held before if none did. -/
theorem simple.SetAll_store {K V : Type} [DecidableEq K] (k : K)
    (writes : List (K × V × Duration)) :
    ∀ (cache : simple.Cache K V) (w : World),
      (simple.SetAll writes cache w).1.store k
        = (match lastWrite k writes w.clock w.reads with
            | some entry => some entry
            | none => cache.store k) := by
  induction writes with
  | nil => intro cache w; rfl
  | cons x rest ih =>
    intro cache w
    obtain ⟨key, value, ttl⟩ := x
    simp only [simple.SetAll, lastWrite]
    rw [ih]
    simp only [simple.Set, World.Now, Store.put, time.Add]
    cases lastWrite k rest w.clock (w.reads + 1) with
    | some entry => rfl
    | none =>
      by_cases hk : key = k
      · subst hk; simp
      · have hk2 : ¬ k = key := fun h => hk h.symm
        simp [hk, hk2]

/-- After a sequence of set messages the worker of the channel store holds for
`k` the entry of the last message that wrote `k`, or what it held before. -/
theorem channel.listenAll_store {K V E : Type} [DecidableEq K] [ToString K] [Inhabited K]
    [Inhabited V] (k : K) (ops : List (channel.operation K V E)) :
    ∀ (store : Store K V) (w : World),
      (∀ op ∈ ops, op.typ = channel.operationType.set) →
      (channel.listenAll ops store w).1 k
        = (match lastWrite k (ops.map (fun op => (op.key, op.value, op.ttl)))
              w.clock w.reads with
            | some entry => some entry
            | none => store k) := by
  induction ops with
  | nil => intro store w _; rfl
  | cons op rest ih =>
    intro store w hall
    have hop : op.typ = channel.operationType.set := hall op (List.mem_cons_self _ _)
    have hrest : ∀ o ∈ rest, o.typ = channel.operationType.set :=
      fun o ho => hall o (List.mem_cons_of_mem _ ho)
    have hstep : (channel.listen store op w).store
          = store.put op.key { value := op.value, expiration := time.Add (w.clock w.reads) op.ttl }
        ∧ (channel.listen store op w).world = { w with reads := w.reads + 1 } := by
      cases hr : op.relayGet <;> simp [channel.listen, hop, hr, World.Now]
    simp only [channel.listenAll, List.map_cons, lastWrite]
    rw [ih _ _ hrest, hstep.1, hstep.2]
    simp only [Store.put, time.Add]
    cases lastWrite k (rest.map (fun op => (op.key, op.value, op.ttl))) w.clock (w.reads + 1) with
    | some entry => rfl
    | none =>
      by_cases hk : op.key = k
      · simp [hk]
      · have hk2 : ¬ k = op.key := fun h => hk h.symm
        simp [hk, hk2]

/-- On either store a `Get` that finds an entry whose expiry is after the
reading returns its value, whatever the resolver, and changes neither the map
nor the number of resolver invocations. -/
theorem Get_hit {K V E : Type} [DecidableEq K] [ToString K] [Inhabited K] [Inhabited V]
    (store : Store K V) (k : K) (entry : expirableValue V)
    (resolver : Option (Resolver K V E)) (w : World) (fuel : Nat)
    (hk : store k = some entry) (hlive : w.instant < entry.expiration) :
    ((simple.Get { store := store } k resolver w).1 = (some entry.value, none) ∧
      (simple.Get { store := store } k resolver w).2.1 = { store := store } ∧
      (simple.Get { store := store } k resolver w).2.2.calls = w.calls) ∧
    ((channel.Get (fuel + 1) { store := store } k resolver w).1
        = some (some entry.value, none) ∧
      (channel.Get (fuel + 1) { store := store } k resolver w).2.1 = { store := store } ∧
      (channel.Get (fuel + 1) { store := store } k resolver w).2.2.calls = w.calls) := by
  simp only [World.instant] at hlive
  constructor
  · simp [simple.Get, hk, World.Now, time.Before, hlive]
  · simp [channel.Get, channel.serve, channel.listen, hk, World.Now, World.makeChan,
      time.Before, hlive]

/-- A sequence of writes none of which is to `k` has no last write to `k`. -/
theorem lastWrite_none {K V : Type} [DecidableEq K] (k : K) (clock : Nat → Time)
    (writes : List (K × V × Duration)) :
    ∀ n : Nat, (∀ y ∈ writes, y.1 ≠ k) → lastWrite k writes clock n = none := by
  induction writes with
  | nil => intro n _; rfl
  | cons y ys ih =>
    intro n hfree
    obtain ⟨ky, vy, ty⟩ := y
    have hky : ky ≠ k := hfree (ky, vy, ty) (List.mem_cons_self _ _)
    simp [lastWrite, ih (n + 1) (fun z hz => hfree z (List.mem_cons_of_mem _ hz)), hky]

/-- The entry that `lastWrite` describes, in terms of positions: when the write
at position `i` has key `k` and no write at a later position has, it is the
value of that write with the reading `clock (n + i)` plus its ttl. -/
theorem lastWrite_of_index {K V : Type} [DecidableEq K] (k : K) (clock : Nat → Time)
    (writes : List (K × V × Duration)) :
    ∀ (n i : Nat) (v : V) (t : Duration),
      writes[i]? = some (k, v, t) →
      (∀ j x, i < j → writes[j]? = some x → x.1 ≠ k) →
      lastWrite k writes clock n = some { value := v, expiration := clock (n + i) + t } := by
  induction writes with
  | nil => intro n i v t h; simp at h
  | cons x rest ih =>
    intro n i v t h hlater
    obtain ⟨key, value, ttl⟩ := x
    cases i with
    | zero =>
      simp only [List.getElem?_cons_zero, Option.some.injEq, Prod.mk.injEq] at h
      obtain ⟨h1, h2, h3⟩ := h
      subst h1 h2 h3
      have hnone : lastWrite key rest clock (n + 1) = none := by
        apply lastWrite_none
        intro y hy
        obtain ⟨j, hj⟩ := List.getElem?_of_mem hy
        exact hlater (j + 1) y (Nat.succ_pos j) (by simpa using hj)
      simp [lastWrite, hnone]
    | succ i =>
      simp only [List.getElem?_cons_succ] at h
      have hl := ih (n + 1) i v t h (by
        intro j x hij hj
        exact hlater (j + 1) x (Nat.succ_lt_succ hij) (by simpa using hj))
      simp only [lastWrite, hl]
      have : n + 1 + i = n + (i + 1) := by omega
      rw [this]

/-- C9 (last write wins, no mixed entries): after any sequence of `Set` calls
on the simple store, and after any sequence of set messages handled by the
worker of the channel store, when the write at position `i` is to `k` and no
later write of the sequence is, the entry stored for `k` is the value of that
write with its own write time (the reading `w.clock (w.reads + i)`) plus its own
ttl; and a `Get` of `k`, with any resolver, read before that expiry returns
that value. -/
theorem C9_last_write_wins {K V E : Type} [DecidableEq K] [ToString K] [Inhabited K]
    [Inhabited V] (k : K) (writes : List (K × V × Duration)) (cache : simple.Cache K V)
    (ops : List (channel.operation K V E)) (store : Store K V) (w r : World)
    (resolver : Option (Resolver K V E)) (fuel : Nat) :
    (∀ (i : Nat) (v : V) (t : Duration),
      writes[i]? = some (k, v, t) →
      (∀ j x, i < j → writes[j]? = some x → x.1 ≠ k) →
      (simple.SetAll writes cache w).1.store k
          = some { value := v, expiration := w.clock (w.reads + i) + t } ∧
        (r.instant < w.clock (w.reads + i) + t →
          (simple.Get (simple.SetAll writes cache w).1 k resolver r).1 = (some v, none))) ∧
    ((∀ op ∈ ops, op.typ = channel.operationType.set) →
      ∀ (i : Nat) (op : channel.operation K V E),
      ops[i]? = some op → op.key = k →
      (∀ j x, i < j → ops[j]? = some x → x.key ≠ k) →
      (channel.listenAll ops store w).1 k
          = some { value := op.value, expiration := w.clock (w.reads + i) + op.ttl } ∧
        (r.instant < w.clock (w.reads + i) + op.ttl →
          (channel.Get (fuel + 1) { store := (channel.listenAll ops store w).1 } k resolver r).1
            = some (some op.value, none))) := by
  constructor
  · intro i v t hi hlater
    have hst : (simple.SetAll writes cache w).1.store k
        = some { value := v, expiration := w.clock (w.reads + i) + t } := by
      rw [simple.SetAll_store, lastWrite_of_index k w.clock writes w.reads i v t hi hlater]
    refine ⟨hst, fun hr => ?_⟩
    exact (Get_hit (simple.SetAll writes cache w).1.store k _ resolver r 0 hst hr).1.1
  · intro hall i op hi hk hlater
    have hst : (channel.listenAll ops store w).1 k
        = some { value := op.value, expiration := w.clock (w.reads + i) + op.ttl } := by
      rw [channel.listenAll_store k ops store w hall,
        lastWrite_of_index k w.clock _ w.reads i op.value op.ttl
          (by simp [List.getElem?_map, hi, hk])
          (by
            intro j x hij hj
            simp only [List.getElem?_map, Option.map_eq_some'] at hj
            obtain ⟨o, ho, hx⟩ := hj
            subst hx
            exact hlater j o hij ho)]
    refine ⟨hst, fun hr => ?_⟩
    exact (Get_hit (channel.listenAll ops store w).1 k _ resolver r fuel hst hr).2.1

/-- Witness of C9: three `Set` calls, the first and the last to key 1, on a new
simple cache; two set messages to key 1 handled by a worker with an empty map;
the clock reading 0, 1, 2, ... -/
theorem C9_last_write_wins_witness :
    (simple.SetAll [((1 : Int), (7 : Int), (5 : Duration)), (2, 8, 5), (1, 9, 3)]
        simple.NewCache ticking).1.store 1
      = some { value := 9, expiration := ticking.clock (ticking.reads + 2) + 3 } ∧
    (channel.listenAll [setMsg 1 7 5, setMsg 1 9 3] Store.empty ticking).1 1
      = some { value := (setMsg 1 9 3).value,
               expiration := ticking.clock (ticking.reads + 1) + (setMsg 1 9 3).ttl } :=
  have h := C9_last_write_wins (1 : Int)
    [((1 : Int), (7 : Int), (5 : Duration)), (2, 8, 5), (1, 9, 3)] simple.NewCache
    [setMsg 1 7 5, setMsg 1 9 3] Store.empty ticking ticking none 0
  ⟨(h.1 2 9 3 rfl (by
      intro j x hj hx
      have hnone : [((1 : Int), (7 : Int), (5 : Duration)), (2, 8, 5), (1, 9, 3)][j]? = none :=
        List.getElem?_eq_none (by simpa using hj)
      rw [hnone] at hx
      cases hx)).1,
    (h.2 (by intro op hop; simp at hop; rcases hop with rfl | rfl <;> rfl) 1 (setMsg 1 9 3) rfl rfl
      (by
        intro j x hj hx
        have hnone : [setMsg 1 7 5, setMsg 1 9 3][j]? = none :=
          List.getElem?_eq_none (by simpa using hj)
        rw [hnone] at hx
        cases hx)).1⟩

/-- C10 (a hit ignores the resolver, both stores): for every store state and
key `k` whose entry `(v, e)` has the reading of the call before `e`, and every
resolver (nil or not, whatever it would return), `Get(k, resolver)` returns `v`
with no error, leaves the number of resolver invocations as it was, and leaves
the store unchanged. -/
theorem C10_hit_ignores_resolver {K V E : Type} [DecidableEq K] [ToString K] [Inhabited K]
    [Inhabited V] (cs : simple.Cache K V) (cc : channel.Cache K V) (k : K) (v : V) (e : Time)
    (resolver : Option (Resolver K V E)) (w : World) (fuel : Nat)
    (hs : cs.store k = some { value := v, expiration := e })
    (hc : cc.store k = some { value := v, expiration := e })
    (hlive : w.instant < e) :
    ((simple.Get cs k resolver w).1 = (some v, none) ∧
      (simple.Get cs k resolver w).2.2.calls = w.calls ∧
      (simple.Get cs k resolver w).2.1 = cs) ∧
    ((channel.Get (fuel + 1) cc k resolver w).1 = some (some v, none) ∧
      (channel.Get (fuel + 1) cc k resolver w).2.2.calls = w.calls ∧
      (channel.Get (fuel + 1) cc k resolver w).2.1 = cc) := by
  obtain ⟨ss⟩ := cs
  obtain ⟨sc⟩ := cc
  have h1 := (Get_hit ss k { value := v, expiration := e } resolver w fuel hs hlive).1
  have h2 := (Get_hit sc k { value := v, expiration := e } resolver w fuel hc hlive).2
  exact ⟨⟨h1.1, h1.2.2, h1.2.1⟩, ⟨h2.1, h2.2.2, h2.2.1⟩⟩

/-- Witness of C10: key 1 holds (9, expiry 5), the clock is at 3, and the
resolver would return 7. -/
theorem C10_hit_ignores_resolver_witness :
    (simple.Get (simple.Set simple.NewCache (1 : Int) (9 : Int) 5 (frozenAt 0)).1 1
      (some fiveTTL) (frozenAt 3)).1 = (some 9, none) ∧
    (channel.Get (0 + 1) (channel.Set channel.NewCache (1 : Int) (9 : Int) 5 (frozenAt 0)).1 1
      (some fiveTTL) (frozenAt 3)).1 = some (some 9, none) :=
  have h := C10_hit_ignores_resolver
    (simple.Set simple.NewCache (1 : Int) (9 : Int) 5 (frozenAt 0)).1
    (channel.Set channel.NewCache (1 : Int) (9 : Int) 5 (frozenAt 0)).1 1 9 5
    (some fiveTTL) (frozenAt 3) 0 rfl rfl (by decide)
  ⟨h.1.1, h.2.1⟩

/-- Witness of C8: a new cache (key absent) on both stores at instant 0. -/
theorem C8_get_nil_resolver_witness :
    (simple.Get (E := Empty) (simple.NewCache : simple.Cache Int Int) 1 none (frozenAt 0)).1.2
      = some (error.Errorf (notFoundMsg (1 : Int))) :=
  ((C8_get_nil_resolver (E := Empty) (simple.NewCache : simple.Cache Int Int)
    (channel.NewCache : channel.Cache Int Int) 1 (frozenAt 0) 0).1.2.2.2).mpr rfl

/-! ## The worker, turn by turn -/

/-- C11 (non-blocking miss, at the level of the worker): the turn that handles
a get message which misses (key absent or expired at the reading) and carries a
resolver does not run the resolver: the map is unchanged, nothing is sent on a
result channel, the one goroutine started is the resolution for this message,
and the number of resolver invocations is as before.  With that resolution
still pending, the next message is handled at once: a `Get(k2, nil)` is
answered by the very next turn and a `Set(k2, v, t)` is applied by it, still
with no resolver invocation. -/
theorem C11_miss_does_not_block {K V E : Type} [DecidableEq K] [ToString K] [Inhabited K]
    [Inhabited V] (store : Store K V) (op : channel.operation K V E) (r : Resolver K V E)
    (w : World) (k2 : K) (v2 : V) (t2 : Duration) (fuel : Nat)
    (htyp : op.typ = channel.operationType.get) (herr : op.resolverError = none)
    (hres : op.resolver = some r)
    (hmiss : ∀ val, store op.key = some val → val.expiration ≤ w.instant) :
    ((channel.listen store op w).store = store ∧
      (channel.listen store op w).sent = [] ∧
      (channel.listen store op w).spawned = [channel.Spawned.resolution op] ∧
      (channel.listen store op w).world.calls = w.calls) ∧
    ((∃ ret, (channel.Get (E := E) (fuel + 1) { store := (channel.listen store op w).store }
          k2 none (channel.listen store op w).world).1 = some ret) ∧
      (channel.Get (E := E) (fuel + 1) { store := (channel.listen store op w).store }
          k2 none (channel.listen store op w).world).2.2.calls = w.calls) ∧
    ((channel.Set { store := (channel.listen store op w).store } k2 v2 t2
          (channel.listen store op w).world).1.store k2
        = some { value := v2, expiration := (channel.listen store op w).world.instant + t2 } ∧
      (channel.Set { store := (channel.listen store op w).store } k2 v2 t2
          (channel.listen store op w).world).2.calls = w.calls) := by
  have hstep : (channel.listen store op w).store = store ∧
      (channel.listen store op w).sent = [] ∧
      (channel.listen store op w).spawned = [channel.Spawned.resolution op] ∧
      (channel.listen store op w).world.calls = w.calls := by
    cases hs : store op.key with
    | none => simp [channel.listen, htyp, herr, hres, hs]
    | some val =>
      have hv : ¬ w.clock w.reads < val.expiration := not_lt.mpr (hmiss val hs)
      simp [channel.listen, htyp, herr, hres, hs, World.Now, time.Before, hv]
  refine ⟨hstep, ?_, ?_⟩
  · generalize channel.listen store op w = h at hstep
    obtain ⟨_, _, _, hcalls⟩ := hstep
    cases hk : h.store k2 with
    | none =>
      simp [channel.Get, channel.serve, channel.listen, hk, World.makeChan, hcalls]
    | some val =>
      by_cases hv : h.world.clock h.world.reads < val.expiration <;>
        simp [channel.Get, channel.serve, channel.listen, hk, World.makeChan, World.Now,
          time.Before, hv, hcalls]
  · generalize channel.listen store op w = h at hstep
    obtain ⟨_, _, _, hcalls⟩ := hstep
    simp [channel.Set, channel.listen, World.Now, World.instant, Store.put, time.Add, hcalls]

/-- Witness of C11: a worker with an empty map handles the get message for
key 1 that carries the resolver `fiveTTL`; nothing is sent and the resolution
is started. -/
theorem C11_miss_does_not_block_witness :
    (channel.listen Store.empty (channel.getMsg (1 : Int) (some fiveTTL) 0) (frozenAt 0)).sent = [] ∧
    (channel.listen Store.empty (channel.getMsg (1 : Int) (some fiveTTL) 0)
      (frozenAt 0)).world.calls = (frozenAt 0).calls :=
  have h := C11_miss_does_not_block Store.empty (channel.getMsg (1 : Int) (some fiveTTL) 0)
    fiveTTL (frozenAt 0) 2 8 5 0 rfl rfl rfl
    (by intro val hval; simp [Store.empty] at hval)
  ⟨h.1.2.1, h.1.2.2.2⟩

/-- A turn of the worker on a get message either sends one result on the
channel of the message and starts nothing, or sends nothing and starts the
resolution for the message, which then carries a resolver. -/
theorem channel.listen_get {K V E : Type} [DecidableEq K] [ToString K] [Inhabited K]
    [Inhabited V] (store : Store K V) (op : channel.operation K V E) (w : World)
    (htyp : op.typ = channel.operationType.get) :
    (channel.listen store op w).store = store ∧
    ((∃ res, (channel.listen store op w).sent = [(op.resultChan, res)] ∧
        (channel.listen store op w).spawned = []) ∨
      ((channel.listen store op w).sent = [] ∧
        (channel.listen store op w).spawned = [channel.Spawned.resolution op] ∧
        ∃ r, op.resolver = some r)) := by
  cases herr : op.resolverError with
  | some e => simp [channel.listen, htyp, herr]
  | none =>
    cases hres : op.resolver with
    | none =>
      cases hs : store op.key with
      | none => simp [channel.listen, htyp, herr, hres, hs]
      | some val =>
        by_cases hv : w.clock w.reads < val.expiration <;>
          simp [channel.listen, htyp, herr, hres, hs, World.Now, time.Before, hv]
    | some r =>
      cases hs : store op.key with
      | none => simp [channel.listen, htyp, herr, hres, hs]
      | some val =>
        by_cases hv : w.clock w.reads < val.expiration <;>
          simp [channel.listen, htyp, herr, hres, hs, World.Now, time.Before, hv]

/-- A turn of the worker on a set message writes the entry, sends nothing on a
result channel, and starts the relay of a get message exactly when `relayGet`
is set. -/
theorem channel.listen_set {K V E : Type} [DecidableEq K] [ToString K] [Inhabited K]
    [Inhabited V] (store : Store K V) (op : channel.operation K V E) (w : World)
    (htyp : op.typ = channel.operationType.set) :
    (channel.listen store op w).store
      = store.put op.key { value := op.value, expiration := time.Add w.instant op.ttl } ∧
    (channel.listen store op w).sent = [] ∧
    (channel.listen store op w).world = { w with reads := w.reads + 1 } ∧
    (channel.listen store op w).spawned
      = (if op.relayGet then
          [channel.Spawned.relay
            { typ := channel.operationType.get, key := op.key, value := default, ttl := 0,
              resolver := op.resolver, resolverError := none, relayGet := false,
              resultChan := op.resultChan }]
        else []) := by
  cases hr : op.relayGet <;> simp [channel.listen, htyp, hr, World.Now, World.instant]

/-- A resolution goroutine whose message carries a resolver invokes it once and
sends one message with the result channel of its message: a get message with
the error of the resolver, or a relaying set message for the same key with the
value and the ttl of the resolver. -/
theorem channel.resolution_message {K V E : Type} [Inhabited K] [Inhabited V]
    (innerOp : channel.operation K V E) (r : Resolver K V E) (w : World)
    (hr : innerOp.resolver = some r) :
    ∃ msg, (channel.Spawned.resolution innerOp).run w
        = (some msg, { w with calls := w.calls + 1 }) ∧
      msg.resultChan = innerOp.resultChan ∧
      ((msg.typ = channel.operationType.get ∧ (∃ e, msg.resolverError = some e) ∧
          msg.resolverError = (r w.calls innerOp.key).Err) ∨
        (msg.typ = channel.operationType.set ∧ msg.relayGet = true ∧ msg.key = innerOp.key ∧
          msg.value = (r w.calls innerOp.key).Value ∧ msg.ttl = (r w.calls innerOp.key).TTL ∧
          msg.resolver = innerOp.resolver ∧ (r w.calls innerOp.key).Err = none)) := by
  cases he : (r w.calls innerOp.key).Err with
  | some e => simp [channel.Spawned.run, hr, World.invoke, he]
  | none => simp [channel.Spawned.run, hr, World.invoke, he]

/-- From a get message, or from a relaying set message, that carries the result
channel `ch`: when the messages come to an end, exactly one result has been
sent, on `ch`, and it is the one the caller receives. -/
theorem channel.chain_one_reply {K V E : Type} [DecidableEq K] [ToString K] [Inhabited K]
    [Inhabited V] (ch : Nat) :
    ∀ (fuel : Nat) (store : Store K V) (op : channel.operation K V E) (w : World)
      (sent : List (Option Nat × channel.result V E)) (store1 : Store K V) (w1 : World),
      op.resultChan = some ch →
      (op.typ = channel.operationType.get ∨ op.relayGet = true) →
      channel.chain fuel store op w = some (sent, store1, w1) →
      ∃ res, sent = [(some ch, res)] ∧
        channel.serve fuel store op ch w = (some res, store1, w1) := by
  intro fuel
  induction fuel with
  | zero => intro store op w sent store1 w1 _ _ h; simp [channel.chain] at h
  | succ n ih =>
    intro store op w sent store1 w1 hch hkind h
    cases htyp : op.typ with
    | get =>
      obtain ⟨_, hl⟩ := channel.listen_get store op w htyp
      rcases hl with ⟨res, hsent, hsp⟩ | ⟨hsent, hsp, r, hr⟩
      · simp only [channel.chain, hsp, Option.some.injEq, Prod.mk.injEq] at h
        obtain ⟨h1, h2, h3⟩ := h
        refine ⟨res, ?_, ?_⟩
        · rw [← h1, hsent, hch]
        · simp [channel.serve, hsent, hch, h2, h3]
      · obtain ⟨msg, hrun, hmch, hmk⟩ :=
          channel.resolution_message op r (channel.listen store op w).world hr
        have hkind2 : msg.typ = channel.operationType.get ∨ msg.relayGet = true := by
          rcases hmk with ⟨h1, _⟩ | ⟨_, h2, _⟩
          · exact Or.inl h1
          · exact Or.inr h2
        simp only [channel.chain, hsp, hrun, hsent, List.nil_append] at h
        simp only [channel.serve, hsent, hsp, hrun, List.find?_nil]
        split at h
        · rename_i sent2 store2 w2 hc
          simp only [Option.some.injEq, Prod.mk.injEq] at h
          obtain ⟨h1, h2, h3⟩ := h
          subst h1 h2 h3
          exact ih _ _ _ _ _ _ (hmch.trans hch) hkind2 hc
        · cases h
    | set =>
      have hrelay : op.relayGet = true := by
        rcases hkind with hk | hk
        · rw [htyp] at hk; cases hk
        · exact hk
      obtain ⟨_, hsent, hw, hsp⟩ := channel.listen_set store op w htyp
      rw [hrelay] at hsp
      simp only [if_true] at hsp
      simp only [channel.chain, hsp, channel.Spawned.run, hsent, List.nil_append] at h
      simp only [channel.serve, hsent, hsp, channel.Spawned.run, List.find?_nil]
      split at h
      · rename_i sent2 store2 w2 hc
        simp only [Option.some.injEq, Prod.mk.injEq] at h
        obtain ⟨h1, h2, h3⟩ := h
        subst h1 h2 h3
        exact ih _ _ _ _ _ _ hch (Or.inl rfl) hc
      · cases h

/-- C12 (each reply handle is signaled exactly once, and only by the handling
of a get message).  A turn of the worker on a set message sends on no result
channel.  A turn on a get message either sends exactly one result, on the
channel of the message, and starts no goroutine, or sends nothing and starts
exactly one goroutine, the resolution for that message, which carries a
resolver.  A resolution sends exactly one message, with the same result
channel: a get message carrying the resolver's error or a relaying set
message.  Hence, when the messages that follow from a `Get` come to an end,
exactly one result has been sent, on the channel of that `Get`, and `Get`
returns it. -/
theorem C12_reply_exactly_once {K V E : Type} [DecidableEq K] [ToString K] [Inhabited K]
    [Inhabited V] (store : Store K V) (op : channel.operation K V E) (w : World)
    (r : Resolver K V E) (fuel : Nat) (cache : channel.Cache K V) (k : K)
    (resolver : Option (Resolver K V E)) :
    (op.typ = channel.operationType.set → (channel.listen store op w).sent = []) ∧
    (op.typ = channel.operationType.get →
      (∃ res, (channel.listen store op w).sent = [(op.resultChan, res)] ∧
          (channel.listen store op w).spawned = []) ∨
        ((channel.listen store op w).sent = [] ∧
          (channel.listen store op w).spawned = [channel.Spawned.resolution op] ∧
          ∃ r1, op.resolver = some r1)) ∧
    (op.resolver = some r →
      ∃ msg, ((channel.Spawned.resolution op).run w).1 = some msg ∧
        msg.resultChan = op.resultChan ∧
        ((msg.typ = channel.operationType.get ∧ ∃ e, msg.resolverError = some e) ∨
          (msg.typ = channel.operationType.set ∧ msg.relayGet = true))) ∧
    (∀ (sent : List (Option Nat × channel.result V E)) (store1 : Store K V) (w1 : World),
      channel.chain fuel cache.store (channel.getMsg k resolver w.chans) w.makeChan.2
          = some (sent, store1, w1) →
      ∃ res, sent = [(some w.chans, res)] ∧
        (channel.Get fuel cache k resolver w).1
          = some (channel.returned res)) := by
  refine ⟨fun h => (channel.listen_set store op w h).2.1,
    fun h => (channel.listen_get store op w h).2, ?_, ?_⟩
  · intro hr
    obtain ⟨msg, hrun, hch, hk⟩ := channel.resolution_message op r w hr
    refine ⟨msg, by rw [hrun], hch, ?_⟩
    rcases hk with ⟨h1, h2, _⟩ | ⟨h1, h2, _⟩
    · exact Or.inl ⟨h1, h2⟩
    · exact Or.inr ⟨h1, h2⟩
  · intro sent store1 w1 h
    obtain ⟨res, hsent, hserve⟩ :=
      channel.chain_one_reply w.chans fuel cache.store _ _ sent store1 w1 rfl (Or.inl rfl) h
    refine ⟨res, hsent, ?_⟩
    simp only [channel.getMsg, World.makeChan] at hserve
    simp only [channel.Get, World.makeChan, hserve, channel.returned]
    cases res.err <;> rfl

/-- Witness of C12: `Get(1, fiveTTL)` on a new cache with the clock reading
0, 1, 2, ...: the messages come to an end after three turns and one result,
value 7, has been sent on channel 0. -/
theorem C12_reply_exactly_once_witness :
    ∃ out, channel.chain 3 (channel.NewCache : channel.Cache Int Int).store
        (channel.getMsg (1 : Int) (some fiveTTL) ticking.chans) ticking.makeChan.2 = some out ∧
      ∃ res, out.1 = [(some ticking.chans, res)] ∧
        (channel.Get 3 channel.NewCache (1 : Int) (some fiveTTL) ticking).1
          = some (channel.returned res) :=
  have hout : ∃ out, channel.chain 3 (channel.NewCache : channel.Cache Int Int).store
      (channel.getMsg (1 : Int) (some fiveTTL) ticking.chans) ticking.makeChan.2 = some out :=
    ⟨_, rfl⟩
  hout.elim fun out h =>
    ⟨out, h, (C12_reply_exactly_once Store.empty (setMsg 1 7 5) ticking fiveTTL 3
      channel.NewCache (1 : Int) (some fiveTTL)).2.2.2 out.1 out.2.1 out.2.2 h⟩

/-- C13 (a failure continuation takes precedence over the store): for every
map and every get message whose `resolverError` is an error `e`, whatever its
key, its resolver and the entry stored for its key (a live one included), the
turn of the worker sends exactly the result with a nil value and the error `e`
on the channel of the message, starts nothing, leaves the map unchanged and
reads neither the map nor the clock: the world is as before and the outcome is
the same on every other map. -/
theorem C13_failure_continuation {K V E : Type} [DecidableEq K] [ToString K] [Inhabited K]
    [Inhabited V] (store store2 : Store K V) (op : channel.operation K V E) (e : error E)
    (w : World) (htyp : op.typ = channel.operationType.get)
    (herr : op.resolverError = some e) :
    (channel.listen store op w).sent = [(op.resultChan, { value := none, err := some e })] ∧
    (channel.listen store op w).spawned = [] ∧
    (channel.listen store op w).store = store ∧
    (channel.listen store op w).world = w ∧
    (channel.listen store2 op w).sent = (channel.listen store op w).sent := by
  simp [channel.listen, htyp, herr]

/-- Witness of C13: the map holds a live entry (9, expiry 5) for key 1 at
instant 0, and the get message for key 1 carries the error `custom 3`. -/
theorem C13_failure_continuation_witness :
    (channel.listen
      (Store.put Store.empty (1 : Int) ({ value := 9, expiration := 5 } : expirableValue Int))
      ({ typ := channel.operationType.get, key := 1, value := 0, ttl := 0, resolver := none,
         resolverError := some (error.custom 3), relayGet := false, resultChan := some 0 } :
        channel.operation Int Int Nat)
      (frozenAt 0)).sent = [(some 0, { value := none, err := some (error.custom 3) })] :=
  (C13_failure_continuation
    (Store.put Store.empty (1 : Int) ({ value := 9, expiration := 5 } : expirableValue Int))
    Store.empty
    ({ typ := channel.operationType.get, key := 1, value := 0, ttl := 0, resolver := none,
       resolverError := some (error.custom 3), relayGet := false, resultChan := some 0 } :
      channel.operation Int Int Nat)
    (error.custom 3) (frozenAt 0) rfl rfl).1

/-! ## Frame, presence and monotonicity -/

/-- The worker of the channel store serving the messages of an operation on
the key `k` (set messages for `k`, get messages for `k` or carrying a resolver
error) leaves the entry of every other key as it was, whatever the number of
messages handled. -/
theorem channel.serve_frame {K V E : Type} [DecidableEq K] [ToString K] [Inhabited K]
    [Inhabited V] (k k2 : K) (hne : k2 ≠ k) (ch : Nat) :
    ∀ (fuel : Nat) (store : Store K V) (op : channel.operation K V E) (w : World),
      (op.typ = channel.operationType.set → op.key = k) →
      (op.typ = channel.operationType.get → op.resolverError = none → op.key = k) →
      (channel.serve fuel store op ch w).2.1 k2 = store k2 := by
  intro fuel
  induction fuel with
  | zero => intro store op w _ _; rfl
  | succ n ih =>
    intro store op w hset hget
    cases htyp : op.typ with
    | get =>
      obtain ⟨hst, hl⟩ := channel.listen_get store op w htyp
      rcases hl with ⟨res, hsent, hsp⟩ | ⟨hsent, hsp, r, hr⟩
      · simp only [channel.serve, hsent, hsp]
        split <;> simp [hst]
      · have hkey : op.key = k := by
          apply hget htyp
          cases herr : op.resolverError with
          | none => rfl
          | some e =>
            have : (channel.listen store op w).sent ≠ [] := by
              simp [channel.listen, htyp, herr]
            exact absurd hsent this
        obtain ⟨msg, hrun, _, hmk⟩ :=
          channel.resolution_message op r (channel.listen store op w).world hr
        simp only [channel.serve, hsent, hsp, hrun, List.find?_nil]
        rw [ih, hst]
        · intro hs
          rcases hmk with ⟨h1, _⟩ | ⟨_, _, h3, _⟩
          · rw [h1] at hs; cases hs
          · rw [h3, hkey]
        · intro hg hnone
          rcases hmk with ⟨_, ⟨e, he⟩, _⟩ | ⟨h1, _⟩
          · rw [he] at hnone; cases hnone
          · rw [h1] at hg; cases hg
    | set =>
      have hkey : op.key = k := hset htyp
      obtain ⟨hst, hsent, _, hsp⟩ := channel.listen_set store op w htyp
      have hput : (channel.listen store op w).store k2 = store k2 := by
        rw [hst, hkey]
        simp [Store.put, hne]
      cases hrel : op.relayGet with
      | false =>
        rw [hrel] at hsp
        simp only [Bool.false_eq_true, if_false] at hsp
        simp only [channel.serve, hsent, hsp, List.find?_nil]
        exact hput
      | true =>
        rw [hrel] at hsp
        simp only [if_true] at hsp
        simp only [channel.serve, hsent, hsp, channel.Spawned.run, List.find?_nil]
        rw [ih, hput]
        · intro hs; cases hs
        · intro _ _; exact hkey

/-- On either store the outcome of `Get(k, nil)` depends on the map only through
the entry of `k`. -/
theorem Get_nil_congr {K V E : Type} [DecidableEq K] [ToString K] [Inhabited K] [Inhabited V]
    (s1 s2 : Store K V) (k : K) (r : World) (fuel : Nat) (h : s1 k = s2 k) :
    (simple.Get (E := E) { store := s1 } k none r).1
      = (simple.Get (E := E) { store := s2 } k none r).1 ∧
    (channel.Get (E := E) (fuel + 1) { store := s1 } k none r).1
      = (channel.Get (E := E) (fuel + 1) { store := s2 } k none r).1 := by
  have hs : (simple.Get (E := E) { store := s1 } k none r).1
      = (simple.Get (E := E) { store := s2 } k none r).1 := by
    simp only [simple.Get, h]
    cases s2 k with
    | none => rfl
    | some val =>
      by_cases hv : r.clock r.reads < val.expiration <;>
        simp [World.Now, time.Before, hv]
  refine ⟨hs, ?_⟩
  rw [(channel.Get_nil_eq_simple (E := E) s1 k r fuel).1,
    (channel.Get_nil_eq_simple (E := E) s2 k r fuel).1, hs]

/-- C14 (operations on one key do not touch other keys): on either store, for
keys `k2 ≠ k`, a `Set(k, v, t)` and a `Get(k, resolver)` (hit or miss, with or
without a resolver, whatever the resolver returns, and on the channel store
whatever the number of messages handled so far) leave the entry stored for
`k2` as it was, so that `Get(k2, nil)` at any reading returns after the
operation what it returns before it. -/
theorem C14_other_keys_untouched {K V E : Type} [DecidableEq K] [ToString K] [Inhabited K]
    [Inhabited V] (cs : simple.Cache K V) (cc : channel.Cache K V) (k k2 : K) (v : V)
    (t : Duration) (resolver : Option (Resolver K V E)) (w r : World) (fuel fuel2 : Nat)
    (hne : k2 ≠ k) :
    (((simple.Set cs k v t w).1.store k2 = cs.store k2 ∧
        (simple.Get (E := E) (simple.Set cs k v t w).1 k2 none r).1
          = (simple.Get (E := E) cs k2 none r).1) ∧
      ((simple.Get cs k resolver w).2.1.store k2 = cs.store k2 ∧
        (simple.Get (E := E) (simple.Get cs k resolver w).2.1 k2 none r).1
          = (simple.Get (E := E) cs k2 none r).1)) ∧
    (((channel.Set cc k v t w).1.store k2 = cc.store k2 ∧
        (channel.Get (E := E) (fuel2 + 1) (channel.Set cc k v t w).1 k2 none r).1
          = (channel.Get (E := E) (fuel2 + 1) cc k2 none r).1) ∧
      ((channel.Get fuel cc k resolver w).2.1.store k2 = cc.store k2 ∧
        (channel.Get (E := E) (fuel2 + 1) (channel.Get fuel cc k resolver w).2.1 k2 none r).1
          = (channel.Get (E := E) (fuel2 + 1) cc k2 none r).1)) := by
  have hsSet : (simple.Set cs k v t w).1.store k2 = cs.store k2 := by
    simp [simple.Set, World.Now, Store.put, hne]
  have hsGet : (simple.Get cs k resolver w).2.1.store k2 = cs.store k2 := by
    simp only [simple.Get]
    split
    · rfl
    · split
      · rfl
      · simp only [World.invoke]
        split
        · rfl
        · simp [simple.Set, World.Now, Store.put, hne]
  have hcSet : (channel.Set cc k v t w).1.store k2 = cc.store k2 := by
    simp [channel.Set, channel.listen, World.Now, Store.put, hne]
  have hcGet : (channel.Get fuel cc k resolver w).2.1.store k2 = cc.store k2 := by
    have h := channel.serve_frame k k2 hne w.chans fuel cc.store
      (channel.getMsg k resolver w.chans) w.makeChan.2
      (by intro hs; cases hs) (by intro _ _; rfl)
    simp only [channel.getMsg, World.makeChan] at h
    simp only [channel.Get, World.makeChan]
    split <;> (try split) <;> exact h
  obtain ⟨ss⟩ := cs
  obtain ⟨sc⟩ := cc
  exact ⟨⟨⟨hsSet, (Get_nil_congr _ _ k2 r 0 hsSet).1⟩, ⟨hsGet, (Get_nil_congr _ _ k2 r 0 hsGet).1⟩⟩,
    ⟨⟨hcSet, (Get_nil_congr _ _ k2 r fuel2 hcSet).2⟩,
      ⟨hcGet, (Get_nil_congr _ _ k2 r fuel2 hcGet).2⟩⟩⟩

/-- Witness of C14: key 2 holds (8, expiry 5); `Get(1, fiveTTL)` misses and
writes key 1 on both stores; key 2 keeps its entry. -/
theorem C14_other_keys_untouched_witness :
    (simple.Get (simple.Set simple.NewCache (2 : Int) (8 : Int) 5 (frozenAt 0)).1 1
        (some fiveTTL) ticking).2.1.store 2
      = (simple.Set simple.NewCache (2 : Int) (8 : Int) 5 (frozenAt 0)).1.store 2 ∧
    (channel.Get 3 (channel.Set channel.NewCache (2 : Int) (8 : Int) 5 (frozenAt 0)).1 1
        (some fiveTTL) ticking).2.1.store 2
      = (channel.Set channel.NewCache (2 : Int) (8 : Int) 5 (frozenAt 0)).1.store 2 :=
  have h := C14_other_keys_untouched
    (simple.Set simple.NewCache (2 : Int) (8 : Int) 5 (frozenAt 0)).1
    (channel.Set channel.NewCache (2 : Int) (8 : Int) 5 (frozenAt 0)).1 1 2 7 5
    (some fiveTTL) ticking ticking 3 0 (by decide)
  ⟨h.1.2.1, h.2.2.1⟩

/-- A turn of the worker removes no key from the map. -/
theorem channel.listen_keeps {K V E : Type} [DecidableEq K] [ToString K] [Inhabited K]
    [Inhabited V] (store : Store K V) (op : channel.operation K V E) (w : World) (k2 : K)
    (h : (store k2).isSome = true) : ((channel.listen store op w).store k2).isSome = true := by
  cases htyp : op.typ with
  | get => rw [(channel.listen_get store op w htyp).1]; exact h
  | set =>
    rw [(channel.listen_set store op w htyp).1]
    simp only [Store.put]
    split
    · rfl
    · exact h

/-- The worker serving a caller removes no key from the map, whatever the
message it starts from and the number of messages handled. -/
theorem channel.serve_keeps {K V E : Type} [DecidableEq K] [ToString K] [Inhabited K]
    [Inhabited V] (k2 : K) (ch : Nat) :
    ∀ (fuel : Nat) (store : Store K V) (op : channel.operation K V E) (w : World),
      (store k2).isSome = true → ((channel.serve fuel store op ch w).2.1 k2).isSome = true := by
  intro fuel
  induction fuel with
  | zero => intro store op w h; exact h
  | succ n ih =>
    intro store op w h
    have hl := channel.listen_keeps store op w k2 h
    simp only [channel.serve]
    split
    · exact hl
    · split
      · exact hl
      · split
        · exact ih _ _ _ hl
        · exact hl

/-- C15 (no eviction): on either store no operation removes a key from the map.
For every state and every key `k2` present in it (expired or not), `k2` is
still present after a `Set` or a `Get` on any key with any resolver (on the
channel store whatever the number of messages handled), and after any turn of
the worker on any message. -/
theorem C15_no_eviction {K V E : Type} [DecidableEq K] [ToString K] [Inhabited K]
    [Inhabited V] (cs : simple.Cache K V) (cc : channel.Cache K V) (k k2 : K) (v : V)
    (t : Duration) (resolver : Option (Resolver K V E)) (op : channel.operation K V E)
    (w : World) (fuel : Nat) :
    ((cs.store k2).isSome = true →
      ((simple.Set cs k v t w).1.store k2).isSome = true ∧
      ((simple.Get cs k resolver w).2.1.store k2).isSome = true) ∧
    ((cc.store k2).isSome = true →
      ((channel.Set cc k v t w).1.store k2).isSome = true ∧
      ((channel.Get fuel cc k resolver w).2.1.store k2).isSome = true ∧
      ((channel.listen cc.store op w).store k2).isSome = true) := by
  constructor
  · intro h
    have hput : ∀ (val : expirableValue V), ((cs.store.put k val) k2).isSome = true := by
      intro val
      simp only [Store.put]
      split
      · rfl
      · exact h
    constructor
    · simp only [simple.Set, World.Now]
      exact hput _
    · simp only [simple.Get]
      split
      · exact h
      · split
        · exact h
        · simp only [World.invoke]
          split
          · exact h
          · simp only [simple.Set, World.Now]
            exact hput _
  · intro h
    refine ⟨?_, ?_, channel.listen_keeps cc.store op w k2 h⟩
    · simp only [channel.Set]
      exact channel.listen_keeps (E := Empty) cc.store _ w k2 h
    · have hs := channel.serve_keeps k2 w.chans fuel cc.store
        (channel.getMsg k resolver w.chans) w.makeChan.2 h
      simp only [channel.getMsg, World.makeChan] at hs
      simp only [channel.Get, World.makeChan]
      split <;> (try split) <;> exact hs

/-- Witness of C15: key 1 holds an entry that expired at instant 0; after a
`Get(1, nil)` at instant 3, which fails, and after a `Set` of key 2, key 1 is
still in the map of both stores. -/
theorem C15_no_eviction_witness :
    ((simple.Get (E := Empty) (simple.Set simple.NewCache (1 : Int) (9 : Int) 0 (frozenAt 0)).1
        1 none (frozenAt 3)).2.1.store 1).isSome = true ∧
    ((channel.Set (channel.Set channel.NewCache (1 : Int) (9 : Int) 0 (frozenAt 0)).1
        2 8 5 (frozenAt 3)).1.store 1).isSome = true :=
  have h := C15_no_eviction (E := Empty)
    (simple.Set simple.NewCache (1 : Int) (9 : Int) 0 (frozenAt 0)).1
    (channel.Set channel.NewCache (1 : Int) (9 : Int) 0 (frozenAt 0)).1 1 1 9 0 none
    (setMsg 2 8 5) (frozenAt 3) 1
  have h2 := C15_no_eviction (E := Empty)
    (simple.Set simple.NewCache (1 : Int) (9 : Int) 0 (frozenAt 0)).1
    (channel.Set channel.NewCache (1 : Int) (9 : Int) 0 (frozenAt 0)).1 2 1 8 5 none
    (setMsg 2 8 5) (frozenAt 3) 1
  ⟨(h.1 rfl).2, (h2.2 rfl).1⟩

/-- C16 (expiry is monotone in time): on either store, for caches that hold the
same entry for `k` (no write to `k` in between) and readings
`r1.instant ≤ r2.instant`, if `Get(k, nil)` at `r1` fails then `Get(k, nil)` at
`r2` fails, and if it returns a value at `r2` it returns the same value at
`r1`. -/
theorem C16_expiry_monotone {K V E : Type} [DecidableEq K] [ToString K] [Inhabited K]
    [Inhabited V] (cs1 cs2 : simple.Cache K V) (cc1 cc2 : channel.Cache K V) (k : K)
    (r1 r2 : World) (fuel : Nat)
    (hs : cs1.store k = cs2.store k) (hc : cc1.store k = cc2.store k)
    (hr : r1.instant ≤ r2.instant) :
    (((simple.Get (E := E) cs1 k none r1).1.2 ≠ none →
        (simple.Get (E := E) cs2 k none r2).1.2 ≠ none) ∧
      (∀ v, (simple.Get (E := E) cs2 k none r2).1 = (some v, none) →
        (simple.Get (E := E) cs1 k none r1).1 = (some v, none))) ∧
    ((∀ ret1, (channel.Get (E := E) (fuel + 1) cc1 k none r1).1 = some ret1 → ret1.2 ≠ none →
        ∃ ret2, (channel.Get (E := E) (fuel + 1) cc2 k none r2).1 = some ret2 ∧ ret2.2 ≠ none) ∧
      (∀ v, (channel.Get (E := E) (fuel + 1) cc2 k none r2).1 = some (some v, none) →
        (channel.Get (E := E) (fuel + 1) cc1 k none r1).1 = some (some v, none))) := by
  have key : ∀ s1 s2 : Store K V, s1 k = s2 k →
      (((simple.Get (E := E) { store := s1 } k none r1).1.2 ≠ none →
        (simple.Get (E := E) { store := s2 } k none r2).1.2 ≠ none) ∧
      (∀ v, (simple.Get (E := E) { store := s2 } k none r2).1 = (some v, none) →
        (simple.Get (E := E) { store := s1 } k none r1).1 = (some v, none))) := by
    intro s1 s2 h
    simp only [World.instant] at hr
    simp only [simple.Get, h]
    cases s2 k with
    | none => simp
    | some val =>
      by_cases h2 : r2.clock r2.reads < val.expiration
      · have h1 : r1.clock r1.reads < val.expiration := lt_of_le_of_lt hr h2
        simp [World.Now, time.Before, h1, h2]
      · by_cases h1 : r1.clock r1.reads < val.expiration <;>
          simp [World.Now, time.Before, h1, h2]
  obtain ⟨s1⟩ := cs1
  obtain ⟨s2⟩ := cs2
  obtain ⟨c1⟩ := cc1
  obtain ⟨c2⟩ := cc2
  refine ⟨key s1 s2 hs, ?_⟩
  obtain ⟨k1, k2⟩ := key c1 c2 hc
  rw [(channel.Get_nil_eq_simple (E := E) c1 k r1 fuel).1,
    (channel.Get_nil_eq_simple (E := E) c2 k r2 fuel).1]
  constructor
  · intro ret1 h1 hne
    simp only [Option.some.injEq] at h1
    subst h1
    exact ⟨_, rfl, k1 hne⟩
  · intro v hv
    simp only [Option.some.injEq] at hv
    rw [k2 v hv]

/-- Witness of C16: key 1 written with ttl 5 at instant 0; read at instants 5
and 7 it fails both times. -/
theorem C16_expiry_monotone_witness :
    (simple.Get (E := Empty) (simple.Set simple.NewCache (1 : Int) (9 : Int) 5 (frozenAt 0)).1
        1 none (frozenAt 7)).1.2 ≠ none :=
  (C16_expiry_monotone (E := Empty)
    (simple.Set simple.NewCache (1 : Int) (9 : Int) 5 (frozenAt 0)).1
    (simple.Set simple.NewCache (1 : Int) (9 : Int) 5 (frozenAt 0)).1
    (channel.Set channel.NewCache (1 : Int) (9 : Int) 5 (frozenAt 0)).1
    (channel.Set channel.NewCache (1 : Int) (9 : Int) 5 (frozenAt 0)).1
    1 (frozenAt 5) (frozenAt 7) 0 rfl rfl (by decide)).1.1 (by decide)
